import Mathlib

/-!
# Named-placeholder binding and row scanning of `core/db.go`

A shallow embedding of the reflection-driven binding layer: the placeholder
rewriter built on the regular expression `[?](\w+)`, the one-shot and the
prepared binding operations, the field index cache, the scan-target pool and
the four row-scanning strategies.

Conventions of the embedding
* a Go `string` is the list of its characters;
* the dynamic values stored in maps, struct fields, slices and result rows are
  an arbitrary type `V`; a slot of a `[]interface{}` is an `Option V`, `none`
  being the nil interface left by `make`;
* a call either returns or panics (`Outcome`); a bound call ends in a usage
  error, in a call handed to the engine, or in a panic (`Reply`);
* the global caches are passed explicitly as state;
* structs are flat (no embedded structs), and a field is exported when its name starts with
  one of `A`-`Z`, which is all that matters for names matched by `\w+`;
* `range` over a Go map visits the entries in an unspecified order: where the code ranges
  over `s.names` the order is an argument;
* the cursor `sql.Rows` and the engine `sql.DB` are external: the cursor is a record of what
  `Columns` and the current row give, the engine is the call it receives.
-/

namespace Core

/-- A Go string, as the sequence of its characters. -/
abbrev GoString := List Char

/-- Identity of a `reflect.Type`. -/
abbrev Ty := Nat

/-- The kinds of `reflect.Kind` the code distinguishes; every other kind is `Other`. -/
inductive Kind where
  | Invalid
  | Ptr
  | Map
  | Struct
  | Slice
  | Other
  deriving DecidableEq, Repr

/-- A slice seen through its header: the `len` visible elements and the cells of
the backing array between `len` and `cap`. -/
structure Slice (V : Type) where
  elems : List V
  spare : List V
  deriving DecidableEq, Repr

/-- The values a caller can pass as `interface{}`, as far as `reflect` tells them apart.
`invalid` is the zero `reflect.Value` (what `reflect.ValueOf(nil)` and `Elem` of a nil pointer
give); `ptr invalid` is therefore a typed nil pointer. A map records the type of its elements
and its string-keyed entries; `nilMap` is a nil map and `mapOtherKey` a map whose key type a
`string` is not assignable to. A struct records its type and its fields in declaration order
(flat: no embedded structs). -/
inductive GoVal (V : Type) where
  | invalid
  | other (v : V)
  | map (elem : Ty) (entries : List (GoString × V))
  | nilMap (elem : Ty)
  | mapOtherKey (elem : Ty)
  | struct (ty : Ty) (fields : List (GoString × V))
  | slice (elem : Ty) (s : Slice V)
  | ptr (target : GoVal V)
  deriving DecidableEq, Repr

/-- The function `reflect.Value.Kind`. -/
def GoVal.Kind {V : Type} : GoVal V → Kind
  | .invalid => .Invalid
  | .other _ => .Other
  | .map _ _ => .Map
  | .nilMap _ => .Map
  | .mapOtherKey _ => .Map
  | .struct _ _ => .Struct
  | .slice _ _ => .Slice
  | .ptr _ => .Ptr

/-- The function `reflect.Value.Elem`, used by the code only behind a `Kind() == Ptr` test
(`||` short-circuits); on other kinds the value is irrelevant. -/
def GoVal.Elem {V : Type} : GoVal V → GoVal V
  | .ptr t => t
  | _ => .invalid

/-- A call returns a value or panics. -/
inductive Outcome (α : Type) where
  | ret (a : α)
  | panic (msg : String)
  deriving DecidableEq, Repr

/-- Sequencing of outcomes: a panic unwinds. -/
def Outcome.bind {α β : Type} (x : Outcome α) (f : α → Outcome β) : Outcome β :=
  match x with
  | .ret a => f a
  | .panic m => .panic m

/-- The calls this layer hands to the wrapped `database/sql` engine. -/
inductive EngineCall (V : Type) where
  | Exec (query : GoString) (args : List (Option V))
  | Query (query : GoString) (args : List (Option V))
  | StmtExec (query : GoString) (args : List (Option V))
  deriving DecidableEq, Repr

/-- How a binding operation ends: it returns a usage error of its own without touching the
engine, it returns whatever the engine returns for one call, or it panics. -/
inductive Reply (V : Type) where
  | usageError (msg : String)
  | engine (c : EngineCall V)
  | panic (msg : String)
  deriving DecidableEq, Repr

/-! ## The regular expression `re` -/

/-- The class `\w` of Go regular expressions: `[0-9A-Za-z_]`. -/
def isWord (c : Char) : Bool := c.isAlphanum || c == '_'

/-- A piece of the subject string: one character outside every match, or one match. -/
inductive Seg where
  | lit (c : Char)
  | hit (src : GoString)
  deriving DecidableEq, Repr

/-- The successive leftmost matches of `re = [?](\w+)` in a subject, as the
replace loop of `regexp` finds them: the search position advances one character at a time
until a `?` followed by at least one word character is met; the match takes the whole run of
word characters (`+` is greedy) and the search resumes right after it. The first argument is
the number of characters still covered by the previous match. -/
def re.segmentsFrom : Nat → GoString → List Seg
  | _, [] => []
  | n + 1, _ :: rest => re.segmentsFrom n rest
  | 0, c :: rest =>
    if c = '?' ∧ rest.takeWhile isWord ≠ [] then
      Seg.hit (c :: rest.takeWhile isWord) :: re.segmentsFrom (rest.takeWhile isWord).length rest
    else
      Seg.lit c :: re.segmentsFrom 0 rest

/-- The matches of `re` in a subject string, with the text between them. -/
def re.segments (src : GoString) : List Seg := re.segmentsFrom 0 src

/-- Running the replacement callback over the pieces: unmatched text is copied, each match is
replaced by what the callback returns; the callback threads its captured variables `σ`. -/
def replaceSegs {σ : Type} (repl : σ → GoString → Outcome (σ × GoString)) :
    List Seg → σ → Outcome (σ × GoString)
  | [], st => .ret (st, [])
  | Seg.lit c :: rest, st =>
    (replaceSegs repl rest st).bind fun r => .ret (r.1, c :: r.2)
  | Seg.hit m :: rest, st =>
    (repl st m).bind fun r1 =>
      (replaceSegs repl rest r1.1).bind fun r2 => .ret (r2.1, r1.2 ++ r2.2)

/-- The method `re.ReplaceAllStringFunc(src, repl)`. -/
def re.ReplaceAllStringFunc {σ : Type} (src : GoString)
    (repl : σ → GoString → Outcome (σ × GoString)) (st : σ) : Outcome (σ × GoString) :=
  replaceSegs repl (re.segments src) st

/-! ## Reflection lookups -/

/-- Lookup in a Go map, kept as the list of its entries; keys are unique, the first entry
decides. -/
def mapGet {κ β : Type} [DecidableEq κ] : List (κ × β) → κ → Option β
  | [], _ => none
  | (k, v) :: rest, key => if k = key then some v else mapGet rest key

/-- The assignment `m[key] = v` on a Go map: an existing entry is overwritten, a new key gets a
new entry. -/
def mapSet {κ β : Type} [DecidableEq κ] : List (κ × β) → κ → β → List (κ × β)
  | [], key, v => [(key, v)]
  | (k, w) :: rest, key, v => if k = key then (k, v) :: rest else (k, w) :: mapSet rest key v

/-- A field is exported when its name starts with an upper-case letter. The test covers the
letters `A`-`Z`: it is exact for the names matched by `\w+`; a name that starts with another
Unicode upper-case letter is outside the embedding, and the theorems on destination structs
assume `isExported` of the fields they use. -/
def isExported : GoString → Bool
  | [] => false
  | c :: _ => c.isUpper

/-- The result of a reflective lookup, a `reflect.Value`: the zero Value, or a value together
with the read-only flag it carries when reached through an unexported field. -/
inductive RValue (V : Type) where
  | zero
  | val (v : V) (readOnly : Bool)
  deriving DecidableEq, Repr

/-- The method `reflect.Value.MapIndex` with a string key: the zero Value when the key is
absent or the map is nil; a panic when a string is not assignable to the key type. -/
def MapIndex {V : Type} (m : GoVal V) (key : GoString) : Outcome (RValue V) :=
  match m with
  | .map _ entries =>
    match mapGet entries key with
    | some v => .ret (.val v false)
    | none => .ret .zero
  | .nilMap _ => .ret .zero
  | .mapOtherKey _ => .panic "reflect.Value.MapIndex: value of type string is not assignable to key type"
  | _ => .panic "reflect: call of reflect.Value.MapIndex on non-map Value"

/-- The method `reflect.Value.FieldByName`: the zero Value when the struct has no field of
that name. -/
def FieldByName {V : Type} (s : GoVal V) (name : GoString) : Outcome (RValue V) :=
  match s with
  | .struct _ fields =>
    match mapGet fields name with
    | some v => .ret (.val v (!isExported name))
    | none => .ret .zero
  | _ => .panic "reflect: call of reflect.Value.FieldByName on non-struct Value"

/-- The method `reflect.Value.Interface`: it panics on the zero Value and on a value obtained
through an unexported field. -/
def RValue.Interface {V : Type} : RValue V → Outcome V
  | .zero => .panic "reflect: call of reflect.Value.Interface on zero Value"
  | .val _ true =>
    .panic "reflect.Value.Interface: cannot return value obtained from unexported field or method"
  | .val v false => .ret v

/-! ## One-shot binding -/

/-- The closure passed by `QueryMap` and `ExecMap`:
`args = append(args, vv.Elem().MapIndex(reflect.ValueOf(src[1:])).Interface()); return "?"`. -/
def mapCallback {V : Type} (vv : GoVal V) (args : List (Option V)) (src : GoString) :
    Outcome (List (Option V) × GoString) :=
  (MapIndex vv.Elem (src.drop 1)).bind fun f =>
    f.Interface.bind fun v => .ret (args ++ [some v], ['?'])

/-- The closure passed by `QueryStruct` and `ExecStruct`:
`args = append(args, vv.Elem().FieldByName(src[1:]).Interface()); return "?"`. -/
def structCallback {V : Type} (vv : GoVal V) (args : List (Option V)) (src : GoString) :
    Outcome (List (Option V) × GoString) :=
  (FieldByName vv.Elem (src.drop 1)).bind fun f =>
    f.Interface.bind fun v => .ret (args ++ [some v], ['?'])

/-- The method `DB.Query`: the engine runs the query. -/
def DB.Query {V : Type} (query : GoString) (args : List (Option V)) : Reply V :=
  .engine (.Query query args)

/-- The method `DB.QueryMap`. -/
def DB.QueryMap {V : Type} (query : GoString) (mp : GoVal V) : Reply V :=
  if mp.Kind ≠ Kind.Ptr ∨ mp.Elem.Kind ≠ Kind.Map then
    .usageError "mp should be a map's pointer"
  else
    match re.ReplaceAllStringFunc query (mapCallback mp) [] with
    | .panic m => .panic m
    | .ret (args, query') => DB.Query query' args

/-- The method `DB.QueryStruct`. -/
def DB.QueryStruct {V : Type} (query : GoString) (st : GoVal V) : Reply V :=
  if st.Kind ≠ Kind.Ptr ∨ st.Elem.Kind ≠ Kind.Struct then
    .usageError "mp should be a map's pointer"
  else
    match re.ReplaceAllStringFunc query (structCallback st) [] with
    | .panic m => .panic m
    | .ret (args, query') => DB.Query query' args

/-- The method `DB.ExecMap`. -/
def DB.ExecMap {V : Type} (query : GoString) (mp : GoVal V) : Reply V :=
  if mp.Kind ≠ Kind.Ptr ∨ mp.Elem.Kind ≠ Kind.Map then
    .usageError "mp should be a map's pointer"
  else
    match re.ReplaceAllStringFunc query (mapCallback mp) [] with
    | .panic m => .panic m
    | .ret (args, query') => .engine (.Exec query' args)

/-- The method `DB.ExecStruct`. -/
def DB.ExecStruct {V : Type} (query : GoString) (st : GoVal V) : Reply V :=
  if st.Kind ≠ Kind.Ptr ∨ st.Elem.Kind ≠ Kind.Struct then
    .usageError "mp should be a map's pointer"
  else
    match re.ReplaceAllStringFunc query (structCallback st) [] with
    | .panic m => .panic m
    | .ret (args, query') => .engine (.Exec query' args)

/-! ## Prepared binding -/

/-- A prepared statement: the query the engine prepared and the table `names`. -/
structure Stmt where
  query : GoString
  names : List (GoString × Nat)
  deriving DecidableEq, Repr

/-- The closure passed by `Prepare`, over its captured `names` and `i`:
`names[src[1:]] = i; i += 1; return "?"`. -/
def prepareCallback (st : List (GoString × Nat) × Nat) (src : GoString) :
    Outcome ((List (GoString × Nat) × Nat) × GoString) :=
  .ret ((mapSet st.1 (src.drop 1) st.2, st.2 + 1), ['?'])

/-- The method `DB.Prepare`; `enginePrepare` is the wrapped `sql.DB.Prepare`, giving the error
it reports for a query, if any. -/
def DB.Prepare (enginePrepare : GoString → Option String) (query : GoString) :
    Outcome (Except String Stmt) :=
  match re.ReplaceAllStringFunc query prepareCallback ([], 0) with
  | .panic m => .panic m
  | .ret ((names, _), query') =>
    match enginePrepare query' with
    | some err => .ret (.error err)
    | none => .ret (.ok { query := query', names := names })

/-- The indexed store `args[i] = v`, which panics when `i` is out of range. -/
def setSlot {α : Type} (args : List α) (i : Nat) (v : α) : Outcome (List α) :=
  if i < args.length then .ret (args.set i v) else .panic "runtime error: index out of range"

/-- The loop `for k, i := range s.names { args[i] = lookup(k) }`; the right-hand side is
evaluated before the store. The first argument lists the entries in the order the `range`
visits them, which Go leaves unspecified. -/
def bindSlots {V : Type} (lookup : GoString → Outcome V) :
    List (GoString × Nat) → List (Option V) → Outcome (List (Option V))
  | [], args => .ret args
  | (k, i) :: rest, args =>
    (lookup k).bind fun v => (setSlot args i (some v)).bind fun args' =>
      bindSlots lookup rest args'

/-- The method `Stmt.ExecMap`; `order` is the order in which `range s.names` visits the
entries, a permutation of `s.names`. -/
def Stmt.ExecMap {V : Type} (s : Stmt) (order : List (GoString × Nat)) (mp : GoVal V) :
    Reply V :=
  if mp.Kind ≠ Kind.Ptr ∨ mp.Elem.Kind ≠ Kind.Map then
    .usageError "mp should be a map's pointer"
  else
    match bindSlots (fun k => (MapIndex mp.Elem k).bind RValue.Interface) order
        (List.replicate s.names.length none) with
    | .panic m => .panic m
    | .ret args => .engine (.StmtExec s.query args)

/-- The method `Stmt.ExecStruct`; `order` as for `Stmt.ExecMap`. -/
def Stmt.ExecStruct {V : Type} (s : Stmt) (order : List (GoString × Nat)) (st : GoVal V) :
    Reply V :=
  if st.Kind ≠ Kind.Ptr ∨ st.Elem.Kind ≠ Kind.Struct then
    .usageError "mp should be a map's pointer"
  else
    match bindSlots (fun k => (FieldByName st.Elem k).bind RValue.Interface) order
        (List.replicate s.names.length none) with
    | .panic m => .panic m
    | .ret args => .engine (.StmtExec s.query args)

/-! ## The row cursor -/

/-- A scan destination, an element of `newDest`: the nil interface left by `make`, the
address of field `j` of the `d`-th destination struct, the address of element `j` of the
destination slice, the cell made by `reflect.New` for column `j`, the address of cell `idx` of
pool slab `slab`, or the pointer to the `EmptyScanner`. -/
inductive Dest where
  | nil
  | field (d j : Nat)
  | elem (j : Nat)
  | fresh (j : Nat)
  | cell (slab idx : Nat)
  | sink
  deriving DecidableEq, Repr

/-- The wrapped `sql.Rows`: what `Columns()` returns, and the current row, either the error
`Scan` reports at once (rows closed, `Next` not called) or, per column, the value the driver
assigns to a destination or the conversion error. -/
structure Cursor (V : Type) where
  columns : Except String (List GoString)
  current : Except String (List (Except String V))

/-- The column loop of `sql.Rows.Scan`: destinations are assigned from left to right and the
first failure stops the loop. A nil destination is refused; the `EmptyScanner` accepts any
value (`EmptyScanner.Scan` returns nil) and stores nothing. The result lists the stores made
and the error, if any. -/
def assignColumns {V : Type} : List Dest → List (Except String V) → List (Dest × V) × Option String
  | [], _ => ([], none)
  | _ :: _, [] => ([], none)
  | d :: ds, x :: xs =>
    match d with
    | .nil => ([], some "sql: Scan error: destination not a pointer")
    | .sink => assignColumns ds xs
    | _ =>
      match x with
      | .error e => ([], some e)
      | .ok v => ((d, v) :: (assignColumns ds xs).1, (assignColumns ds xs).2)

/-- The method `sql.Rows.Scan`. -/
def Cursor.Scan {V : Type} (rs : Cursor V) (dest : List Dest) : List (Dest × V) × Option String :=
  match rs.current with
  | .error e => ([], some e)
  | .ok row =>
    if dest.length ≠ row.length then
      ([], some "sql: expected a different number of destination arguments in Scan")
    else assignColumns dest row

/-- The content of a destination after the stores of a scan: the last value stored there, or
its prior content. -/
def readBack {V : Type} (stores : List (Dest × V)) (d : Dest) (prior : V) : V :=
  match mapGet stores.reverse d with
  | some v => v
  | none => prior

/-- A call on the cursor. -/
inductive CursorCall where
  | Columns
  | Scan (dest : List Dest)
  deriving DecidableEq, Repr

/-- What a scanning operation does: the calls it made on the cursor, in order; how it ended,
with the error it returned (`none` for nil) or a panic; and the state of what the caller
passed, after the call. -/
structure Scanned (α : Type) where
  calls : List CursorCall
  outcome : Outcome (Option String)
  dest : α
  deriving DecidableEq, Repr

/-! ## Struct by position -/

/-- The assignment through the address of field `j`: the field keeps its name. -/
def setFieldAt {V : Type} : List (GoString × V) → Nat → V → List (GoString × V)
  | [], _, _ => []
  | (n, _) :: rest, 0, v => (n, v) :: rest
  | f :: rest, j + 1, v => f :: setFieldAt rest j v

/-- The names of the fields of a struct value, in declaration order (`NumField`, `Field`). -/
def GoVal.fieldNames {V : Type} : GoVal V → List GoString
  | .struct _ fields => fields.map Prod.fst
  | _ => []

/-- The store of a scanned value through a field address into a pointed-to struct. -/
def GoVal.storeField {V : Type} : GoVal V → Nat → V → GoVal V
  | .ptr (.struct ty fields), j, v => .ptr (.struct ty (setFieldAt fields j v))
  | x, _, _ => x

/-- The `d`-th destination struct receives a value in its field `j`. -/
def storeInto {V : Type} : List (GoVal V) → Nat → Nat → V → List (GoVal V)
  | [], _, _, _ => []
  | x :: rest, 0, j, v => x.storeField j v :: rest
  | x :: rest, d + 1, j, v => x :: storeInto rest d j v

/-- The effect on the destination structs of the stores a scan made, in order. -/
def storeStructs {V : Type} (dest : List (GoVal V)) : List (Dest × V) → List (GoVal V)
  | [] => dest
  | (Dest.field d j, v) :: rest => storeStructs (storeInto dest d j v) rest
  | _ :: rest => storeStructs dest rest

/-- The inner loop of `ScanStruct` over the fields of the `d`-th struct, from field `j` on:
`newDest[i] = vvv.Field(j).Addr().Interface(); i = i + 1`. `Interface` panics on an unexported
field; the store panics when `i` is out of range. -/
def fillFields (d : Nat) : List GoString → Nat → List Dest → Nat → Outcome (List Dest × Nat)
  | [], _, newDest, i => .ret (newDest, i)
  | name :: rest, j, newDest, i =>
    if isExported name then
      (setSlot newDest i (Dest.field d j)).bind fun nd => fillFields d rest (j + 1) nd (i + 1)
    else
      .panic "reflect.Value.Interface: cannot return value obtained from unexported field or method"

/-- The outer loop of `ScanStruct` over `vvvs`, from the `d`-th struct on. -/
def fillStructs {V : Type} : List (GoVal V) → Nat → List Dest → Nat → Outcome (List Dest)
  | [], _, newDest, _ => .ret newDest
  | vvv :: rest, d, newDest, i =>
    (fillFields d vvv.fieldNames 0 newDest i).bind fun r => fillStructs rest (d + 1) r.1 r.2

/-- The method `Rows.ScanStruct`. -/
def Rows.ScanStruct {V : Type} (rs : Cursor V) (dest : List (GoVal V)) :
    Scanned (List (GoVal V)) :=
  if dest.length = 0 then
    { calls := [], outcome := .ret (some "at least one struct"), dest := dest }
  else if dest.any (fun s => s.Kind ≠ Kind.Ptr ∨ s.Elem.Kind ≠ Kind.Struct) then
    { calls := [], outcome := .ret (some "dest should be a struct's pointer"), dest := dest }
  else
    match rs.columns with
    | .error err => { calls := [.Columns], outcome := .ret (some err), dest := dest }
    | .ok cols =>
      match fillStructs (dest.map GoVal.Elem) 0 (List.replicate cols.length Dest.nil) 0 with
      | .panic m => { calls := [.Columns], outcome := .panic m, dest := dest }
      | .ret newDest =>
        { calls := [.Columns, .Scan newDest],
          outcome := .ret (rs.Scan newDest).2,
          dest := storeStructs dest (rs.Scan newDest).1 }

/-! ## Field index cache and struct by name -/

/-- The global `fieldCache`, a `map[reflect.Type]map[string]int`. -/
abbrev FieldCache := List (Ty × List (GoString × Nat))

/-- The loop `for i := 0; i < v.NumField(); i++ { cache[t.Field(i).Name] = i }`, from
position `i` on. -/
def buildIndex : List GoString → Nat → List (GoString × Nat) → List (GoString × Nat)
  | [], _, cache => cache
  | name :: rest, i, cache => buildIndex rest (i + 1) (mapSet cache name i)

/-- The `reflect.Value` that `fieldByName` returns: the zero Value (never produced), the
field at a position, or `reflect.Zero(t)`, a valid but unaddressable value of the struct
type itself. -/
inductive FieldRef where
  | invalid
  | field (j : Nat)
  | zeroOf (t : Ty)
  deriving DecidableEq, Repr

/-- The method `reflect.Value.IsValid`: false on the zero Value only. -/
def FieldRef.IsValid : FieldRef → Bool
  | .invalid => false
  | .field _ => true
  | .zeroOf _ => true

/-- The function `fieldByName`, with the global cache as state. -/
def fieldByName {V : Type} (fieldCache : FieldCache) (v : GoVal V) (name : GoString) :
    FieldCache × Outcome FieldRef :=
  match v with
  | .struct t fields =>
    match mapGet fieldCache t with
    | some cache =>
      match mapGet cache name with
      | some i =>
        if i < fields.length then (fieldCache, .ret (.field i))
        else (fieldCache, .panic "reflect: Field index out of range")
      | none => (fieldCache, .ret (.zeroOf t))
    | none =>
      match mapGet (buildIndex (fields.map Prod.fst) 0 []) name with
      | some i =>
        if i < fields.length then
          (mapSet fieldCache t (buildIndex (fields.map Prod.fst) 0 []), .ret (.field i))
        else
          (mapSet fieldCache t (buildIndex (fields.map Prod.fst) 0 []),
            .panic "reflect: Field index out of range")
      | none => (mapSet fieldCache t (buildIndex (fields.map Prod.fst) 0 []), .ret (.zeroOf t))
  | _ => (fieldCache, .panic "reflect: call of reflect.Value.NumField on non-struct Value")

/-- The expression `f.Addr().Interface()` on a value returned by `fieldByName` for the struct
`v`: `Addr` panics on a value that is not addressable, `Interface` on an unexported field. -/
def addrInterface {V : Type} (v : GoVal V) : FieldRef → Outcome Dest
  | .invalid => .panic "reflect: call of reflect.Value.Addr on zero Value"
  | .zeroOf _ => .panic "reflect.Value.Addr of unaddressable value"
  | .field j =>
    match v.fieldNames.get? j with
    | none => .panic "reflect: Field index out of range"
    | some name =>
      if isExported name then .ret (Dest.field 0 j)
      else
        .panic "reflect.Value.Interface: cannot return value obtained from unexported field or method"

/-- The loop of `ScanStruct2` over the columns, from column `j` on; `Table2Obj` is the
mapper of the rows. -/
def fillByName {V : Type} (Table2Obj : GoString → GoString) (v : GoVal V) :
    List GoString → Nat → FieldCache → List Dest → FieldCache × Outcome (List Dest)
  | [], _, fc, newDest => (fc, .ret newDest)
  | name :: rest, j, fc, newDest =>
    match fieldByName fc v (Table2Obj name) with
    | (fc', .panic m) => (fc', .panic m)
    | (fc', .ret f) =>
      if f.IsValid then
        match (addrInterface v f).bind fun a => setSlot newDest j a with
        | .panic m => (fc', .panic m)
        | .ret nd => fillByName Table2Obj v rest (j + 1) fc' nd
      else
        match setSlot newDest j Dest.sink with
        | .panic m => (fc', .panic m)
        | .ret nd => fillByName Table2Obj v rest (j + 1) fc' nd

/-- The method `Rows.ScanStruct2`, with the global field cache as state. -/
def Rows.ScanStruct2 {V : Type} (Table2Obj : GoString → GoString) (fieldCache : FieldCache)
    (rs : Cursor V) (dest : GoVal V) : FieldCache × Scanned (GoVal V) :=
  if dest.Kind ≠ Kind.Ptr ∨ dest.Elem.Kind ≠ Kind.Struct then
    (fieldCache,
      { calls := [], outcome := .ret (some "dest should be a struct's pointer"), dest := dest })
  else
    match rs.columns with
    | .error err => (fieldCache, { calls := [.Columns], outcome := .ret (some err), dest := dest })
    | .ok cols =>
      match fillByName Table2Obj dest.Elem cols 0 fieldCache
          (List.replicate cols.length Dest.nil) with
      | (fc, .panic m) => (fc, { calls := [.Columns], outcome := .panic m, dest := dest })
      | (fc, .ret newDest) =>
        (fc, { calls := [.Columns, .Scan newDest],
               outcome := .ret (rs.Scan newDest).2,
               dest := (storeStructs [dest] (rs.Scan newDest).1).headD dest })

/-! ## Scan-target pool -/

/-- A slab made by `reflect.MakeSlice`: its identity (the rank of its allocation) and its
number of cells. -/
structure Slab where
  id : Nat
  len : Nat
  deriving DecidableEq, Repr

/-- The struct `cacheStruct`: a slab and the cursor into it. -/
structure cacheStruct where
  value : Slab
  idx : Nat
  deriving DecidableEq, Repr

/-- The global `reflectCache`, a `map[reflect.Type]*cacheStruct`, and the number of slabs
allocated so far, which names the next one. -/
structure Pool where
  reflectCache : List (Ty × cacheStruct)
  allocated : Nat
  deriving DecidableEq, Repr

/-- The constant `newSize`. -/
def newSize : Nat := 200

/-- The pool before any call. -/
def Pool.empty : Pool := { reflectCache := [], allocated := 0 }

/-- The expression `cs.value.Index(cs.idx).Addr()`: `Index` panics out of range. -/
def cacheStruct.cell (cs : cacheStruct) : Outcome Dest :=
  if cs.idx < cs.value.len then .ret (Dest.cell cs.value.id cs.idx)
  else .panic "reflect: slice index out of range"

/-- The function `ReflectNew`, with the pool as state. -/
def ReflectNew (p : Pool) (typ : Ty) : Pool × Outcome Dest :=
  match mapGet p.reflectCache typ with
  | none =>
    ({ reflectCache := mapSet p.reflectCache typ { value := ⟨p.allocated, newSize⟩, idx := 0 },
       allocated := p.allocated + 1 },
      cacheStruct.cell { value := ⟨p.allocated, newSize⟩, idx := 0 })
  | some cs =>
    if cs.idx + 1 > newSize - 1 then
      ({ reflectCache := mapSet p.reflectCache typ { value := ⟨p.allocated, newSize⟩, idx := 0 },
         allocated := p.allocated + 1 },
        cacheStruct.cell { value := ⟨p.allocated, newSize⟩, idx := 0 })
    else
      ({ reflectCache := mapSet p.reflectCache typ { value := cs.value, idx := cs.idx + 1 },
         allocated := p.allocated },
        cacheStruct.cell { value := cs.value, idx := cs.idx + 1 })

/-- A run of `n` successive calls `ReflectNew(typ)`: the final pool and the outcomes of the
calls, in order. -/
def ReflectNew.run (typ : Ty) : Nat → Pool → Pool × List (Outcome Dest)
  | 0, p => (p, [])
  | n + 1, p =>
    ((ReflectNew.run typ n (ReflectNew p typ).1).1,
      (ReflectNew p typ).2 :: (ReflectNew.run typ n (ReflectNew p typ).1).2)

/-- The pools reachable from the empty pool by a sequence of calls of `ReflectNew`, for any
mix of types. -/
inductive Pool.Reachable : Pool → Prop where
  | empty : Pool.Reachable Pool.empty
  | step (p : Pool) (typ : Ty) : Pool.Reachable p → Pool.Reachable (ReflectNew p typ).1

/-- The invariant of the pool: every slab on record was allocated before, has `newSize` cells,
and its cursor is inside it. -/
def Pool.Sound (p : Pool) : Prop :=
  ∀ t cs, mapGet p.reflectCache t = some cs →
    cs.value.id < p.allocated ∧ cs.value.len = newSize ∧ cs.idx < newSize

/-- The rank of a cell in the order of hand-out: slabs by allocation, cells by position. -/
def cellRank (slab idx : Nat) : Nat := slab * newSize + idx

/-- The least rank a cell handed out next for a type can have. -/
def Pool.nextRank (p : Pool) (typ : Ty) : Nat :=
  match mapGet p.reflectCache typ with
  | none => cellRank p.allocated 0
  | some cs => cellRank cs.value.id cs.idx + 1

/-! ## Slice -/

/-- The in-place stores of a scan into the elements of the destination slice. -/
def storeElems {V : Type} (elems : List V) : List (Dest × V) → List V
  | [] => elems
  | (Dest.elem j, v) :: rest => storeElems (elems.set j v) rest
  | _ :: rest => storeElems elems rest

/-- The local variable `vvv` of `ScanSlice` once `reflect.Append` has returned a new header:
its elements, and whether it still sits on the backing array of the caller. -/
structure LocalSlice (V : Type) where
  elems : List V
  onCallerArray : Bool
  deriving DecidableEq, Repr

/-- The call `reflect.Append(vvv, x)`: with room left in the backing array of the caller the
element is stored there, past the length of the caller's header; otherwise a larger array is
allocated and the elements are copied. The header returned is a new one in both cases. -/
def reflectAppend {V : Type} (caller : Slice V) (vvv : LocalSlice V) (x : V) :
    Slice V × LocalSlice V :=
  if vvv.onCallerArray ∧ vvv.elems.length < caller.elems.length + caller.spare.length then
    ({ elems := caller.elems, spare := caller.spare.set (vvv.elems.length - caller.elems.length) x },
      { elems := vvv.elems ++ [x], onCallerArray := true })
  else
    (caller, { elems := vvv.elems ++ [x], onCallerArray := false })

/-- The loop `for i := srcLen; i < len(cols); i++ { vvv = reflect.Append(vvv, *newDest[i]) }`
over the listed indices; `zero` is the content of a cell that received no store. -/
def appendLoop {V : Type} (stores : List (Dest × V)) (zero : V) :
    List Nat → Slice V → LocalSlice V → Slice V × LocalSlice V
  | [], caller, vvv => (caller, vvv)
  | i :: rest, caller, vvv =>
    appendLoop stores zero rest
      (reflectAppend caller vvv (readBack stores (Dest.fresh i) zero)).1
      (reflectAppend caller vvv (readBack stores (Dest.fresh i) zero)).2

/-- The method `Rows.ScanSlice`; `zero` gives the zero value of a type. In `dest` the result
holds the slice the caller's pointer refers to after the call: the variable `vvv` that
`reflect.Append` grows is local and is never stored back through the pointer. -/
def Rows.ScanSlice {V : Type} (zero : Ty → V) (rs : Cursor V) (dest : GoVal V) :
    Scanned (GoVal V) :=
  match dest with
  | .ptr (.slice ty s) =>
    match rs.columns with
    | .error err => { calls := [.Columns], outcome := .ret (some err), dest := dest }
    | .ok cols =>
      let newDest := (List.range cols.length).map fun j =>
        if j ≥ s.elems.length then Dest.fresh j else Dest.elem j
      let r := rs.Scan newDest
      let stored : Slice V := { elems := storeElems s.elems r.1, spare := s.spare }
      match r.2 with
      | some err =>
        { calls := [.Columns, .Scan newDest], outcome := .ret (some err),
          dest := .ptr (.slice ty stored) }
      | none =>
        { calls := [.Columns, .Scan newDest], outcome := .ret none,
          dest := .ptr (.slice ty
            (appendLoop r.1 (zero ty)
              (List.range' s.elems.length (cols.length - s.elems.length)) stored
              { elems := stored.elems, onCallerArray := true }).1) }
  | _ => { calls := [], outcome := .ret (some "dest should be a slice's pointer"), dest := dest }

/-! ## Map -/

/-- The type `vvv.Type().Elem()` of the elements of a map. -/
def GoVal.elemType {V : Type} : GoVal V → Ty
  | .map t _ => t
  | .nilMap t => t
  | .mapOtherKey t => t
  | .slice t _ => t
  | _ => 0

/-- The loop `for i, _ := range cols { newDest[i] = ReflectNew(typ).Interface() }`: one pool
cell per column, in column order. -/
def acquireCells (typ : Ty) : List GoString → Pool → Pool × Outcome (List Dest)
  | [], p => (p, .ret [])
  | _ :: rest, p =>
    match ReflectNew p typ with
    | (p1, .panic m) => (p1, .panic m)
    | (p1, .ret c) =>
      match acquireCells typ rest p1 with
      | (p2, .panic m) => (p2, .panic m)
      | (p2, .ret cs) => (p2, .ret (c :: cs))

/-- The method `reflect.Value.SetMapIndex` with a string key: it panics on a nil map and when
a string is not assignable to the key type. -/
def GoVal.SetMapIndex {V : Type} : GoVal V → GoString → V → Outcome (GoVal V)
  | .map t entries, key, v => .ret (.map t (mapSet entries key v))
  | .nilMap _, _, _ => .panic "assignment to entry in nil map"
  | .mapOtherKey _, _, _ =>
    .panic "reflect.Value.SetMapIndex: value of type string is not assignable to key type"
  | _, _, _ => .panic "reflect: call of reflect.Value.SetMapIndex on non-map Value"

/-- The loop `for i, name := range cols { vvv.SetMapIndex(name, *newDest[i]) }`: the map
reached, and the panic that stopped the loop, if any. -/
def setEntries {V : Type} (stores : List (Dest × V)) (zero : V) :
    List (GoString × Dest) → GoVal V → GoVal V × Option String
  | [], vvv => (vvv, none)
  | (name, d) :: rest, vvv =>
    match vvv.SetMapIndex name (readBack stores d zero) with
    | .panic m => (vvv, some m)
    | .ret vvv' => setEntries stores zero rest vvv'

/-- The method `Rows.ScanMap`, with the pool as state; `zero` gives the zero value of a
type, the content of a pool cell never handed out before. -/
def Rows.ScanMap {V : Type} (zero : Ty → V) (pool : Pool) (rs : Cursor V) (dest : GoVal V) :
    Pool × Scanned (GoVal V) :=
  if dest.Kind ≠ Kind.Ptr ∨ dest.Elem.Kind ≠ Kind.Map then
    (pool, { calls := [], outcome := .ret (some "dest should be a map's pointer"), dest := dest })
  else
    match rs.columns with
    | .error err => (pool, { calls := [.Columns], outcome := .ret (some err), dest := dest })
    | .ok cols =>
      match acquireCells dest.Elem.elemType cols pool with
      | (p, .panic m) => (p, { calls := [.Columns], outcome := .panic m, dest := dest })
      | (p, .ret newDest) =>
        match (rs.Scan newDest).2 with
        | some err =>
          (p, { calls := [.Columns, .Scan newDest], outcome := .ret (some err), dest := dest })
        | none =>
          match setEntries (rs.Scan newDest).1 (zero dest.Elem.elemType) (cols.zip newDest)
              dest.Elem with
          | (vvv, some m) =>
            (p, { calls := [.Columns, .Scan newDest], outcome := .panic m, dest := .ptr vvv })
          | (vvv, none) =>
            (p, { calls := [.Columns, .Scan newDest], outcome := .ret none, dest := .ptr vvv })

/-! ## The rewriting and the destination lists as the specification words them -/

/-- True when the string starts with a word character. -/
def startsWord : GoString → Bool
  | [] => false
  | c :: _ => isWord c

/-- The rewriting as the specification words it: `Rewritten q out names` holds when `out` is
`q` with each leftmost, maximal, non-overlapping match of `?` followed by one or more word
characters replaced by `?`, all other text unchanged, and `names` lists the matched names (the
matches without their leading `?`) from left to right. A character is kept only where no match
starts; a match takes a non-empty run of word characters that cannot be extended. -/
inductive Rewritten : GoString → GoString → List GoString → Prop where
  | done : Rewritten [] [] []
  | keep (c : Char) (rest out : GoString) (names : List GoString) :
      ¬ (c = '?' ∧ startsWord rest = true) → Rewritten rest out names →
      Rewritten (c :: rest) (c :: out) names
  | subst (name rest out : GoString) (names : List GoString) :
      name ≠ [] → (∀ c ∈ name, isWord c = true) → startsWord rest = false →
      Rewritten rest out names →
      Rewritten ('?' :: (name ++ rest)) ('?' :: out) (name :: names)

/-- The destination list the specification describes for a scan by position: the addresses of
the fields of each struct in declaration order, the structs taken in argument order, the first
one being numbered `d`. -/
def positionalDests {V : Type} : Nat → List (GoVal V) → List Dest
  | _, [] => []
  | d, vvv :: rest =>
    (List.range' 0 vvv.fieldNames.length).map (Dest.field d) ++ positionalDests (d + 1) rest

/-- The total number of fields of a list of structs. -/
def fieldTotal {V : Type} : List (GoVal V) → Nat
  | [] => 0
  | vvv :: rest => vvv.fieldNames.length + fieldTotal rest

/-- The value a source provides under a name: the entry of a map with string keys, the
accessible (exported) field of a struct; a nil map, a map with other keys and every other value
provide nothing. -/
def GoVal.valueOf {V : Type} : GoVal V → GoString → Option V
  | .map _ entries, n => mapGet entries n
  | .struct _ fields, n => if isExported n then mapGet fields n else none
  | _, _ => none

/-- A bare `?` is a `?` that no word character follows. -/
def hasBareMarker : GoString → Bool
  | [] => false
  | c :: rest => (c == '?' && !startsWord rest) || hasBareMarker rest

/-- The number of positional markers `?` in a query. -/
def markerCount (q : GoString) : Nat := q.count '?'


/-- True when the query holds a named placeholder: a `?` immediately followed by a word
character. -/
def hasNamed : GoString → Bool
  | [] => false
  | c :: rest => (c == '?' && startsWord rest) || hasNamed rest

/-- The field caches reachable from the empty cache by a sequence of calls of `fieldByName`
on struct values; `fieldsOf` gives the field names each struct type declares, and a value of
type `t` has exactly these fields. -/
inductive CacheReachable (fieldsOf : Ty → List GoString) : FieldCache → Prop where
  | empty : CacheReachable fieldsOf []
  | step {V : Type} (fc : FieldCache) (t : Ty) (fields : List (GoString × V))
      (name : GoString) : fields.map Prod.fst = fieldsOf t → CacheReachable fieldsOf fc →
      CacheReachable fieldsOf (fieldByName fc (GoVal.struct t fields) name).1

/-! ## The rewriter meets its description -/

theorem takeWhile_ne_nil_iff (s : GoString) : s.takeWhile isWord ≠ [] ↔ startsWord s = true := by
  cases s with
  | nil => simp [startsWord]
  | cons c t =>
    by_cases h : isWord c = true <;> simp [startsWord, List.takeWhile, h]

theorem takeWhile_word_append (name rest : GoString) (hw : ∀ c ∈ name, isWord c = true)
    (hr : startsWord rest = false) : (name ++ rest).takeWhile isWord = name := by
  induction name with
  | nil =>
    cases rest with
    | nil => rfl
    | cons c t => simp [startsWord] at hr; simp [List.takeWhile, hr]
  | cons a t ih =>
    have ha : isWord a = true := hw a (List.mem_cons_self _ _)
    have ht : ∀ c ∈ t, isWord c = true := fun c hc => hw c (List.mem_cons_of_mem _ hc)
    simp [List.takeWhile, ha, ih ht]

theorem segmentsFrom_skip (n : Nat) (s : GoString) :
    re.segmentsFrom n s = re.segmentsFrom 0 (s.drop n) := by
  induction s generalizing n with
  | nil => cases n <;> simp [re.segmentsFrom]
  | cons c t ih =>
    cases n with
    | zero => simp
    | succ k => simp [re.segmentsFrom, ih k]

theorem segments_keep (c : Char) (rest : GoString) (h : ¬ (c = '?' ∧ startsWord rest = true)) :
    re.segments (c :: rest) = Seg.lit c :: re.segments rest := by
  unfold re.segments
  rw [re.segmentsFrom, if_neg]
  rw [takeWhile_ne_nil_iff]
  exact h

theorem segments_subst (name rest : GoString) (hne : name ≠ [])
    (hw : ∀ c ∈ name, isWord c = true) (hr : startsWord rest = false) :
    re.segments ('?' :: (name ++ rest)) = Seg.hit ('?' :: name) :: re.segments rest := by
  unfold re.segments
  rw [re.segmentsFrom, if_pos]
  · rw [takeWhile_word_append name rest hw hr, segmentsFrom_skip, List.drop_left]
  · rw [takeWhile_word_append name rest hw hr]
    exact ⟨rfl, hne⟩

theorem rewritten_exists_aux (n : Nat) :
    ∀ q : GoString, q.length ≤ n → ∃ out names, Rewritten q out names := by
  induction n with
  | zero =>
    intro q hq
    cases q with
    | nil => exact ⟨[], [], Rewritten.done⟩
    | cons c rest => simp at hq
  | succ n ih =>
    intro q hq
    cases q with
    | nil => exact ⟨[], [], Rewritten.done⟩
    | cons c rest =>
      have hrest : rest.length ≤ n := by simp at hq; omega
      by_cases hc : c = '?' ∧ startsWord rest = true
      · obtain ⟨hq, hs⟩ := hc
        have hlen : (rest.dropWhile isWord).length ≤ n :=
          le_trans (List.dropWhile_sublist isWord).length_le hrest
        obtain ⟨out, names, hr⟩ := ih (rest.dropWhile isWord) hlen
        refine ⟨'?' :: out, rest.takeWhile isWord :: names, ?_⟩
        have hsplit : rest = rest.takeWhile isWord ++ rest.dropWhile isWord :=
          (List.takeWhile_append_dropWhile isWord rest).symm
        have hstop : startsWord (rest.dropWhile isWord) = false := by
          cases hd : rest.dropWhile isWord with
          | nil => rfl
          | cons a t =>
            have := List.head_dropWhile_not isWord rest (by simp [hd])
            simpa [startsWord, hd] using this
        have := Rewritten.subst (rest.takeWhile isWord) (rest.dropWhile isWord) out names
          ((takeWhile_ne_nil_iff rest).2 hs) (fun c hc => List.mem_takeWhile_imp hc) hstop hr
        rw [← hsplit] at this
        rw [hq]; exact this
      · obtain ⟨out, names, hr⟩ := ih rest hrest
        exact ⟨c :: out, names, Rewritten.keep c rest out names hc hr⟩

theorem rewritten_exists (q : GoString) : ∃ out names, Rewritten q out names :=
  rewritten_exists_aux q.length q (le_refl _)

theorem startsWord_append (name rest : GoString) (hne : name ≠ [])
    (hw : ∀ c ∈ name, isWord c = true) : startsWord (name ++ rest) = true := by
  cases name with
  | nil => exact absurd rfl hne
  | cons a t => simpa [startsWord] using hw a (List.mem_cons_self _ _)

theorem rewritten_unique {q o1 o2 : GoString} {n1 n2 : List GoString}
    (h1 : Rewritten q o1 n1) (h2 : Rewritten q o2 n2) : o1 = o2 ∧ n1 = n2 := by
  induction h1 generalizing o2 n2 with
  | done => cases h2; exact ⟨rfl, rfl⟩
  | keep c rest out names hc _ ih =>
    cases h2 with
    | keep _ _ out2 names2 _ hr2 =>
      obtain ⟨ho, hn⟩ := ih hr2
      exact ⟨by rw [ho], hn⟩
    | subst name rest2 out2 names2 hne hw _ _ =>
      exact absurd ⟨rfl, startsWord_append name rest2 hne hw⟩ hc
  | subst name rest out names hne hw hr _ ih =>
    generalize hq : '?' :: (name ++ rest) = q at h2
    cases h2 with
    | done => cases hq
    | keep c rest2 out2 names2 hc2 _ =>
      injection hq with hqc hqr
      subst hqc; subst hqr
      exact absurd ⟨rfl, startsWord_append name rest hne hw⟩ hc2
    | subst name2 rest2 out2 names2 hne2 hw2 hr2 hrest2 =>
      injection hq with _ hqr
      have e1 := takeWhile_word_append name rest hw hr
      have e2 := takeWhile_word_append name2 rest2 hw2 hr2
      rw [hqr, e2] at e1
      subst e1
      have hrr : rest = rest2 := List.append_cancel_left hqr
      subst hrr
      obtain ⟨ho, hn⟩ := ih hrest2
      exact ⟨by rw [ho], by rw [hn]⟩

theorem replaceSegs_rewritten {V : Type} (val : GoString → Option V)
    (repl : List (Option V) → GoString → Outcome (List (Option V) × GoString))
    {q out : GoString} {names : List GoString} (h : Rewritten q out names)
    (hrepl : ∀ name ∈ names, ∀ args, repl args ('?' :: name) = .ret (args ++ [val name], ['?']))
    (args : List (Option V)) :
    re.ReplaceAllStringFunc q repl args = .ret (args ++ names.map val, out) := by
  unfold re.ReplaceAllStringFunc
  induction h generalizing args with
  | done => simp [re.segments, re.segmentsFrom, replaceSegs]
  | keep c rest out names hc _ ih =>
    rw [segments_keep c rest hc, replaceSegs, ih hrepl args]
    rfl
  | subst name rest out names hne hw hr _ ih =>
    rw [segments_subst name rest hne hw hr, replaceSegs,
      hrepl name (List.mem_cons_self _ _) args]
    have := ih (fun n hn a => hrepl n (List.mem_cons_of_mem _ hn) a) (args ++ [val name])
    simp only [Outcome.bind, this]
    simp


theorem mapCallback_provided {V : Type} (m : GoVal V) (hk : m.Kind = Kind.Map)
    (name : GoString) (h : (m.valueOf name).isSome = true) (args : List (Option V)) :
    mapCallback (.ptr m) args ('?' :: name) = .ret (args ++ [m.valueOf name], ['?']) := by
  obtain ⟨v, hv⟩ := Option.isSome_iff_exists.1 h
  cases m with
  | map elem entries =>
    simp only [GoVal.valueOf] at hv
    simp [mapCallback, GoVal.Elem, MapIndex, hv, Outcome.bind, RValue.Interface, GoVal.valueOf]
  | nilMap elem => simp [GoVal.valueOf] at hv
  | mapOtherKey elem => simp [GoVal.valueOf] at hv
  | _ => simp [GoVal.Kind] at hk

theorem structCallback_provided {V : Type} (s : GoVal V) (hk : s.Kind = Kind.Struct)
    (name : GoString) (h : (s.valueOf name).isSome = true) (args : List (Option V)) :
    structCallback (.ptr s) args ('?' :: name) = .ret (args ++ [s.valueOf name], ['?']) := by
  obtain ⟨v, hv⟩ := Option.isSome_iff_exists.1 h
  cases s with
  | struct ty fields =>
    simp only [GoVal.valueOf] at hv
    by_cases he : isExported name = true
    · rw [if_pos he] at hv
      simp [structCallback, GoVal.Elem, FieldByName, hv, Outcome.bind, RValue.Interface,
        GoVal.valueOf, he]
    · rw [if_neg he] at hv
      cases hv
  | _ => simp [GoVal.Kind] at hk

/-- C1: one-shot rewriting. For a template `query` whose rewriting, as the specification
describes it, is `out` with matched names `names`: on a pointer to a map that provides a value
for every name, `DB.ExecMap` and `DB.QueryMap` hand the engine the query `out` and one argument
per placeholder occurrence, in left-to-right order, the i-th being the value of the source
under the i-th name; on a pointer to a struct that provides every name (as an accessible
field), `DB.ExecStruct` and `DB.QueryStruct` do the same. A repeated name contributes its value
at each occurrence. -/
theorem one_shot_rewriting {V : Type} (query out : GoString) (names : List GoString)
    (hrw : Rewritten query out names) :
    (∀ m : GoVal V, m.Kind = Kind.Map →
      (∀ n ∈ names, (m.valueOf n).isSome = true) →
        DB.ExecMap query (.ptr m) = .engine (.Exec out (names.map m.valueOf))
          ∧ DB.QueryMap query (.ptr m) = .engine (.Query out (names.map m.valueOf)))
    ∧ (∀ s : GoVal V, s.Kind = Kind.Struct →
      (∀ n ∈ names, (s.valueOf n).isSome = true) →
        DB.ExecStruct query (.ptr s) = .engine (.Exec out (names.map s.valueOf))
          ∧ DB.QueryStruct query (.ptr s) = .engine (.Query out (names.map s.valueOf))) := by
  constructor
  · intro m hk hp
    have h := replaceSegs_rewritten m.valueOf (mapCallback (.ptr m)) hrw
      (fun n hn args => mapCallback_provided m hk n (hp n hn) args) []
    have hshape : ¬ ((GoVal.ptr m).Kind ≠ Kind.Ptr ∨ (GoVal.ptr m).Elem.Kind ≠ Kind.Map) := by
      intro hs
      rcases hs with hs | hs
      · exact hs rfl
      · exact hs hk
    simp only [DB.ExecMap, DB.QueryMap, DB.Query, if_neg hshape, h, List.nil_append]
    exact ⟨trivial, trivial⟩
  · intro s hk hp
    have h := replaceSegs_rewritten s.valueOf (structCallback (.ptr s)) hrw
      (fun n hn args => structCallback_provided s hk n (hp n hn) args) []
    have hshape : ¬ ((GoVal.ptr s).Kind ≠ Kind.Ptr ∨ (GoVal.ptr s).Elem.Kind ≠ Kind.Struct) := by
      intro hs
      rcases hs with hs | hs
      · exact hs rfl
      · exact hs hk
    simp only [DB.ExecStruct, DB.QueryStruct, DB.Query, if_neg hshape, h, List.nil_append]
    exact ⟨trivial, trivial⟩

theorem rewritten_sample :
    Rewritten ['a', '=', '?', 'X', ',', '?', 'Y', '_', '1', ' ', '?', '?', 'X', '?']
      ['a', '=', '?', ',', '?', ' ', '?', '?', '?'] [['X'], ['Y', '_', '1'], ['X']] :=
  Rewritten.keep 'a' _ _ _ (by decide) <|
  Rewritten.keep '=' _ _ _ (by decide) <|
  Rewritten.subst ['X'] [',', '?', 'Y', '_', '1', ' ', '?', '?', 'X', '?'] _ _
    (by decide) (by decide) (by decide) <|
  Rewritten.keep ',' _ _ _ (by decide) <|
  Rewritten.subst ['Y', '_', '1'] [' ', '?', '?', 'X', '?'] _ _
    (by decide) (by decide) (by decide) <|
  Rewritten.keep ' ' _ _ _ (by decide) <|
  Rewritten.keep '?' _ _ _ (by decide) <|
  Rewritten.subst ['X'] ['?'] _ _ (by decide) (by decide) (by decide) <|
  Rewritten.keep '?' _ _ _ (by decide) Rewritten.done

/-- Witness of C1: the template `a=?X,?Y_1 ??X?` on a map and on a struct holding `X` and
`Y_1`. -/
theorem one_shot_rewriting_witness :
    (DB.ExecMap ['a', '=', '?', 'X', ',', '?', 'Y', '_', '1', ' ', '?', '?', 'X', '?']
        (.ptr (.map 0 [(['X'], (10 : Nat)), (['Y', '_', '1'], 20)]))
      = .engine (.Exec ['a', '=', '?', ',', '?', ' ', '?', '?', '?'] [some 10, some 20, some 10])
      ∧ DB.QueryMap ['a', '=', '?', 'X', ',', '?', 'Y', '_', '1', ' ', '?', '?', 'X', '?']
        (.ptr (.map 0 [(['X'], (10 : Nat)), (['Y', '_', '1'], 20)]))
      = .engine (.Query ['a', '=', '?', ',', '?', ' ', '?', '?', '?'] [some 10, some 20, some 10]))
    ∧ (DB.ExecStruct ['a', '=', '?', 'X', ',', '?', 'Y', '_', '1', ' ', '?', '?', 'X', '?']
        (.ptr (.struct 0 [(['X'], (10 : Nat)), (['Y', '_', '1'], 20)]))
      = .engine (.Exec ['a', '=', '?', ',', '?', ' ', '?', '?', '?'] [some 10, some 20, some 10])
      ∧ DB.QueryStruct ['a', '=', '?', 'X', ',', '?', 'Y', '_', '1', ' ', '?', '?', 'X', '?']
        (.ptr (.struct 0 [(['X'], (10 : Nat)), (['Y', '_', '1'], 20)]))
      = .engine (.Query ['a', '=', '?', ',', '?', ' ', '?', '?', '?'] [some 10, some 20, some 10])) :=
  ⟨(one_shot_rewriting _ _ _ rewritten_sample).1
      (.map 0 [(['X'], (10 : Nat)), (['Y', '_', '1'], 20)]) rfl (by decide),
   (one_shot_rewriting _ _ _ rewritten_sample).2
      (.struct 0 [(['X'], (10 : Nat)), (['Y', '_', '1'], 20)]) rfl (by decide)⟩


/-! ## Missing names, repeated names, marker counts -/

/-- C3 (evaluation at the failing input): with a template naming `a` and a source that has no
`a` (an empty map, a struct with the single field `B`), the lookup gives the zero
`reflect.Value` and its `Interface()` panics in all six binding operations; nothing reaches the
engine. -/
theorem missing_name_panics :
    DB.ExecMap ['?', 'a'] (.ptr (.map 0 ([] : List (GoString × Nat))))
        = .panic "reflect: call of reflect.Value.Interface on zero Value"
    ∧ DB.QueryMap ['?', 'a'] (.ptr (.map 0 ([] : List (GoString × Nat))))
        = .panic "reflect: call of reflect.Value.Interface on zero Value"
    ∧ DB.ExecStruct ['?', 'a'] (.ptr (.struct 0 [(['B'], (1 : Nat))]))
        = .panic "reflect: call of reflect.Value.Interface on zero Value"
    ∧ DB.QueryStruct ['?', 'a'] (.ptr (.struct 0 [(['B'], (1 : Nat))]))
        = .panic "reflect: call of reflect.Value.Interface on zero Value"
    ∧ DB.Prepare (fun _ => none) ['?', 'a'] = .ret (.ok { query := ['?'], names := [(['a'], 0)] })
    ∧ Stmt.ExecMap { query := ['?'], names := [(['a'], 0)] } [(['a'], 0)]
        (.ptr (.map 0 ([] : List (GoString × Nat))))
        = .panic "reflect: call of reflect.Value.Interface on zero Value"
    ∧ Stmt.ExecStruct { query := ['?'], names := [(['a'], 0)] } [(['a'], 0)]
        (.ptr (.struct 0 [(['B'], (1 : Nat))]))
        = .panic "reflect: call of reflect.Value.Interface on zero Value" := by
  refine ⟨?_, ?_, ?_, ?_, ?_, ?_, ?_⟩ <;> first | decide | rfl

/-- C2 (evaluation at the failing input): for the template `?A ?A`, `DB.Prepare` records the
name `A` at position 1, the position of its last occurrence, in a table of one entry; executing
the statement on a source that provides `A` then stores at `args[1]` in a slice of length 1 and
panics, for `Stmt.ExecMap` and `Stmt.ExecStruct` alike. -/
theorem prepare_repeated_name :
    DB.Prepare (fun _ => none) ['?', 'A', ' ', '?', 'A']
        = .ret (.ok { query := ['?', ' ', '?'], names := [(['A'], 1)] })
    ∧ Stmt.ExecMap { query := ['?', ' ', '?'], names := [(['A'], 1)] } [(['A'], 1)]
        (.ptr (.map 0 [(['A'], (7 : Nat))]))
        = .panic "runtime error: index out of range"
    ∧ Stmt.ExecStruct { query := ['?', ' ', '?'], names := [(['A'], 1)] } [(['A'], 1)]
        (.ptr (.struct 0 [(['A'], (7 : Nat))]))
        = .panic "runtime error: index out of range" := by
  refine ⟨?_, ?_, ?_⟩ <;> first | decide | rfl

theorem hasBareMarker_append (name rest : GoString) (h : hasBareMarker (name ++ rest) = false) :
    hasBareMarker rest = false := by
  induction name with
  | nil => simpa using h
  | cons a t ih =>
    simp only [List.cons_append, hasBareMarker, Bool.or_eq_false_iff] at h
    exact ih h.2

theorem markers_eq_occurrences {q out : GoString} {names : List GoString}
    (h : Rewritten q out names) (hb : hasBareMarker q = false) :
    markerCount out = names.length := by
  unfold markerCount
  induction h with
  | done => rfl
  | keep c rest out names hc _ ih =>
    simp only [hasBareMarker, Bool.or_eq_false_iff] at hb
    have hne : c ≠ '?' := by
      intro hq
      subst hq
      have h1 := hb.1
      simp at h1
      exact hc ⟨rfl, h1⟩
    rw [List.count_cons_of_ne hne.symm]
    exact ih hb.2
  | subst name rest out names hne hw hr _ ih =>
    simp only [hasBareMarker, Bool.or_eq_false_iff] at hb
    rw [List.count_cons_self, ih (hasBareMarker_append name rest hb.2)]
    simp

/-- C10 fails as stated: the template `?a,?a` has one distinct placeholder and no bare `?`, the
map provides `a`, yet the rewritten query `?,?` holds two markers. -/
theorem marker_count_counterexample :
    ¬ (∀ (query out : GoString) (names : List GoString) (entries : List (GoString × Nat)),
        Rewritten query out names → hasBareMarker query = false →
        (∀ n ∈ names, (mapGet entries n).isSome = true) →
        ∃ q args, DB.ExecMap query (.ptr (.map 0 entries)) = .engine (.Exec q args)
          ∧ markerCount q = names.dedup.length ∧ args.length = names.length) := by
  intro h
  have hrw : Rewritten ['?', 'a', ',', '?', 'a'] ['?', ',', '?'] [['a'], ['a']] :=
    Rewritten.subst ['a'] [',', '?', 'a'] _ _ (by decide) (by decide) (by decide) <|
    Rewritten.keep ',' _ _ _ (by decide) <|
    Rewritten.subst ['a'] [] _ _ (by decide) (by decide) (by decide) Rewritten.done
  obtain ⟨q, args, he, hm, _⟩ := h _ _ _ [(['a'], 7)] hrw (by decide) (by decide)
  have hq : DB.ExecMap ['?', 'a', ',', '?', 'a'] (.ptr (.map 0 [(['a'], (7 : Nat))]))
      = .engine (.Exec ['?', ',', '?'] [some 7, some 7]) := by decide
  rw [hq] at he
  injection he with he
  injection he with he1 _
  subst he1
  revert hm
  decide

/-- C10, amended: for a template without bare `?` and a map providing every name, `DB.ExecMap`
and `DB.QueryMap` hand the engine a query with exactly as many markers `?` as the template has
placeholder occurrences, and as many arguments; the number of markers is the number `k` of
distinct names when no name repeats. -/
theorem marker_and_argument_counts {V : Type} (query out : GoString) (names : List GoString)
    (elem : Ty) (entries : List (GoString × V))
    (hrw : Rewritten query out names) (hbare : hasBareMarker query = false)
    (hp : ∀ n ∈ names, (mapGet entries n).isSome = true) :
    ∃ q args,
      DB.ExecMap query (.ptr (.map elem entries)) = .engine (.Exec q args)
      ∧ DB.QueryMap query (.ptr (.map elem entries)) = .engine (.Query q args)
      ∧ markerCount q = names.length ∧ args.length = names.length
      ∧ (names.Nodup → markerCount q = names.dedup.length) := by
  have h := replaceSegs_rewritten (mapGet entries) (mapCallback (.ptr (.map elem entries))) hrw
    (fun n hn args => mapCallback_provided (.map elem entries) rfl n (hp n hn) args) []
  refine ⟨out, names.map (mapGet entries), ?_, ?_, markers_eq_occurrences hrw hbare, by simp, ?_⟩
  · simp [DB.ExecMap, GoVal.Kind, GoVal.Elem, h]
  · simp [DB.QueryMap, DB.Query, GoVal.Kind, GoVal.Elem, h]
  · intro hnd
    rw [markers_eq_occurrences hrw hbare, List.Nodup.dedup hnd]

/-- Witness of the amended C10: the template `?a,?a` on a map providing `a`. -/
theorem marker_and_argument_counts_witness :
    ∃ q args,
      DB.ExecMap ['?', 'a', ',', '?', 'a'] (.ptr (.map 0 [(['a'], (7 : Nat))]))
        = .engine (.Exec q args)
      ∧ DB.QueryMap ['?', 'a', ',', '?', 'a'] (.ptr (.map 0 [(['a'], (7 : Nat))]))
        = .engine (.Query q args)
      ∧ markerCount q = 2 ∧ args.length = 2
      ∧ (([['a'], ['a']] : List GoString).Nodup →
          markerCount q = ([['a'], ['a']] : List GoString).dedup.length) :=
  marker_and_argument_counts ['?', 'a', ',', '?', 'a'] ['?', ',', '?'] [['a'], ['a']] 0
    [(['a'], (7 : Nat))]
    (Rewritten.subst ['a'] [',', '?', 'a'] _ _ (by decide) (by decide) (by decide) <|
      Rewritten.keep ',' _ _ _ (by decide) <|
      Rewritten.subst ['a'] [] _ _ (by decide) (by decide) (by decide) Rewritten.done)
    (by decide) (by decide)


/-! ## Usage errors -/

theorem shape_test_fails {V : Type} (k : Kind) (x : GoVal V)
    (h : ∀ t, x = .ptr t → t.Kind ≠ k) : x.Kind ≠ Kind.Ptr ∨ x.Elem.Kind ≠ k := by
  cases x with
  | ptr t => exact Or.inr (h t rfl)
  | _ => exact Or.inl (by simp [GoVal.Kind])

/-- C8: usage errors fail fast. A source that is not a pointer to a map makes `DB.QueryMap`,
`DB.ExecMap` and `Stmt.ExecMap` return their usage error whatever the template, and a source
that is not a pointer to a struct does so for `DB.QueryStruct`, `DB.ExecStruct` and
`Stmt.ExecStruct`: no argument is built and no call reaches the engine. `Rows.ScanStruct` with
no destination, and `ScanStruct`, `ScanStruct2`, `ScanSlice`, `ScanMap` with a destination of
the wrong shape, return an error having made no call on the cursor and leave the destination
and the caches as they were. -/
theorem usage_errors_fail_fast {V : Type} :
    (∀ mp : GoVal V, (∀ t, mp = .ptr t → t.Kind ≠ Kind.Map) →
      ∀ (query : GoString) (s : Stmt) (order : List (GoString × Nat)),
        DB.QueryMap query mp = .usageError "mp should be a map's pointer"
        ∧ DB.ExecMap query mp = .usageError "mp should be a map's pointer"
        ∧ Stmt.ExecMap s order mp = .usageError "mp should be a map's pointer")
    ∧ (∀ st : GoVal V, (∀ t, st = .ptr t → t.Kind ≠ Kind.Struct) →
      ∀ (query : GoString) (s : Stmt) (order : List (GoString × Nat)),
        DB.QueryStruct query st = .usageError "mp should be a map's pointer"
        ∧ DB.ExecStruct query st = .usageError "mp should be a map's pointer"
        ∧ Stmt.ExecStruct s order st = .usageError "mp should be a map's pointer")
    ∧ (∀ rs : Cursor V, Rows.ScanStruct rs []
        = { calls := [], outcome := .ret (some "at least one struct"), dest := [] })
    ∧ (∀ (rs : Cursor V) (dest : List (GoVal V)),
        (∃ d ∈ dest, ∀ t, d = .ptr t → t.Kind ≠ Kind.Struct) →
        Rows.ScanStruct rs dest
          = { calls := [], outcome := .ret (some "dest should be a struct's pointer"),
              dest := dest })
    ∧ (∀ (Table2Obj : GoString → GoString) (fc : FieldCache) (rs : Cursor V) (dest : GoVal V),
        (∀ t, dest = .ptr t → t.Kind ≠ Kind.Struct) →
        Rows.ScanStruct2 Table2Obj fc rs dest
          = (fc, { calls := [], outcome := .ret (some "dest should be a struct's pointer"),
                   dest := dest }))
    ∧ (∀ (zero : Ty → V) (rs : Cursor V) (dest : GoVal V),
        (∀ t, dest = .ptr t → t.Kind ≠ Kind.Slice) →
        Rows.ScanSlice zero rs dest
          = { calls := [], outcome := .ret (some "dest should be a slice's pointer"),
              dest := dest })
    ∧ (∀ (zero : Ty → V) (pool : Pool) (rs : Cursor V) (dest : GoVal V),
        (∀ t, dest = .ptr t → t.Kind ≠ Kind.Map) →
        Rows.ScanMap zero pool rs dest
          = (pool, { calls := [], outcome := .ret (some "dest should be a map's pointer"),
                     dest := dest })) := by
  refine ⟨?_, ?_, ?_, ?_, ?_, ?_, ?_⟩
  · intro mp h query s order
    have hs := shape_test_fails Kind.Map mp h
    simp [DB.QueryMap, DB.ExecMap, Stmt.ExecMap, hs]
  · intro st h query s order
    have hs := shape_test_fails Kind.Struct st h
    simp [DB.QueryStruct, DB.ExecStruct, Stmt.ExecStruct, hs]
  · intro rs
    simp [Rows.ScanStruct]
  · intro rs dest h
    obtain ⟨d, hd, hbad⟩ := h
    have hlen : dest.length ≠ 0 := by
      intro h0
      rw [List.length_eq_zero] at h0
      subst h0
      simp at hd
    have hany : dest.any (fun s => s.Kind ≠ Kind.Ptr ∨ s.Elem.Kind ≠ Kind.Struct) = true := by
      rw [List.any_eq_true]
      exact ⟨d, hd, by simpa using shape_test_fails Kind.Struct d hbad⟩
    simp only [Rows.ScanStruct, if_neg hlen, hany, if_true]
  · intro Table2Obj fc rs dest h
    have hs := shape_test_fails Kind.Struct dest h
    simp [Rows.ScanStruct2, hs]
  · intro zero rs dest h
    cases dest with
    | ptr t =>
      cases t with
      | slice ty s => exact absurd rfl (h _ rfl)
      | _ => rfl
    | _ => rfl
  · intro zero pool rs dest h
    have hs := shape_test_fails Kind.Map dest h
    simp [Rows.ScanMap, hs]

/-- Witness of C8: a map passed by value, a nil pointer, a struct passed by value and a pointer
to a map where a slice is expected. -/
theorem usage_errors_fail_fast_witness :
    (DB.QueryMap ['?', 'a'] (GoVal.map 0 [(['a'], (1 : Nat))])
        = .usageError "mp should be a map's pointer"
      ∧ DB.ExecMap ['?', 'a'] (GoVal.map 0 [(['a'], (1 : Nat))])
        = .usageError "mp should be a map's pointer"
      ∧ Stmt.ExecMap { query := ['?'], names := [(['a'], 0)] } [(['a'], 0)]
          (GoVal.map 0 [(['a'], (1 : Nat))])
        = .usageError "mp should be a map's pointer")
    ∧ (DB.QueryStruct ['?', 'a'] (GoVal.ptr (.invalid : GoVal Nat))
        = .usageError "mp should be a map's pointer"
      ∧ DB.ExecStruct ['?', 'a'] (GoVal.ptr (.invalid : GoVal Nat))
        = .usageError "mp should be a map's pointer"
      ∧ Stmt.ExecStruct { query := ['?'], names := [(['a'], 0)] } [(['a'], 0)]
          (GoVal.ptr (.invalid : GoVal Nat))
        = .usageError "mp should be a map's pointer")
    ∧ Rows.ScanStruct { columns := .ok [['a']], current := .ok [.ok (1 : Nat)] }
          [.ptr (.struct 0 [(['A'], 0)]), .struct 0 [(['B'], 0)]]
        = { calls := [], outcome := .ret (some "dest should be a struct's pointer"),
            dest := [.ptr (.struct 0 [(['A'], 0)]), .struct 0 [(['B'], 0)]] }
    ∧ Rows.ScanStruct2 id [] { columns := .ok [['a']], current := .ok [.ok (1 : Nat)] }
          (.struct 0 [(['B'], 0)])
        = ([], { calls := [], outcome := .ret (some "dest should be a struct's pointer"),
                 dest := .struct 0 [(['B'], 0)] })
    ∧ Rows.ScanSlice (fun _ => 0) { columns := .ok [['a']], current := .ok [.ok (1 : Nat)] }
          (.ptr (.map 0 []))
        = { calls := [], outcome := .ret (some "dest should be a slice's pointer"),
            dest := .ptr (.map 0 []) }
    ∧ Rows.ScanMap (fun _ => 0) Pool.empty
          { columns := .ok [['a']], current := .ok [.ok (1 : Nat)] } (.map 0 [])
        = (Pool.empty, { calls := [], outcome := .ret (some "dest should be a map's pointer"),
                         dest := .map 0 [] }) :=
  ⟨usage_errors_fail_fast.1 (GoVal.map 0 [(['a'], (1 : Nat))]) (by intro t h; cases h)
      ['?', 'a'] { query := ['?'], names := [(['a'], 0)] } [(['a'], 0)],
   usage_errors_fail_fast.2.1 (GoVal.ptr (.invalid : GoVal Nat))
      (by intro t h; injection h with h; subst h; decide)
      ['?', 'a'] { query := ['?'], names := [(['a'], 0)] } [(['a'], 0)],
   usage_errors_fail_fast.2.2.2.1 { columns := .ok [['a']], current := .ok [.ok (1 : Nat)] }
      [.ptr (.struct 0 [(['A'], 0)]), .struct 0 [(['B'], 0)]]
      ⟨.struct 0 [(['B'], 0)], by simp, by intro t h; cases h⟩,
   usage_errors_fail_fast.2.2.2.2.1 id [] { columns := .ok [['a']], current := .ok [.ok (1 : Nat)] }
      (.struct 0 [(['B'], 0)]) (by intro t h; cases h),
   usage_errors_fail_fast.2.2.2.2.2.1 (fun _ => 0)
      { columns := .ok [['a']], current := .ok [.ok (1 : Nat)] } (.ptr (.map 0 []))
      (by intro t h; injection h with h; subst h; decide),
   usage_errors_fail_fast.2.2.2.2.2.2 (fun _ => 0) Pool.empty
      { columns := .ok [['a']], current := .ok [.ok (1 : Nat)] } (.map 0 [])
      (by intro t h; cases h)⟩


/-! ## Slice scan and struct scan by name at their failing inputs -/

theorem storeElems_length {V : Type} (stores : List (Dest × V)) (elems : List V) :
    (storeElems elems stores).length = elems.length := by
  induction stores generalizing elems with
  | nil => rfl
  | cons st rest ih =>
    obtain ⟨d, v⟩ := st
    cases d <;> simp [storeElems, ih]

theorem appendLoop_elems {V : Type} (stores : List (Dest × V)) (zero : V) (is : List Nat)
    (caller : Slice V) (vvv : LocalSlice V) :
    (appendLoop stores zero is caller vvv).1.elems = caller.elems := by
  induction is generalizing caller vvv with
  | nil => rfl
  | cons i rest ih =>
    rw [appendLoop, ih]
    unfold reflectAppend
    split <;> rfl

/-- C4 (evaluation at the failing input): on the slice `[0]` with columns `a, b, c` and row
`(1, 2, 3)` the scan succeeds and the caller's slice is `[1]`, of length 1: the header grown by
`reflect.Append` stays in the local variable. In general the slice behind the caller's pointer
keeps its length through every call of `Rows.ScanSlice`. -/
theorem scan_slice_not_grown :
    Rows.ScanSlice (fun _ => 0)
        { columns := .ok [['a'], ['b'], ['c']], current := .ok [.ok (1 : Nat), .ok 2, .ok 3] }
        (.ptr (.slice 0 { elems := [0], spare := [] }))
      = { calls := [.Columns, .Scan [Dest.elem 0, Dest.fresh 1, Dest.fresh 2]],
          outcome := .ret none,
          dest := .ptr (.slice 0 { elems := [1], spare := [] }) }
    ∧ ∀ (V : Type) (zero : Ty → V) (rs : Cursor V) (ty : Ty) (s : Slice V),
        ∃ s1, (Rows.ScanSlice zero rs (.ptr (.slice ty s))).dest = .ptr (.slice ty s1)
          ∧ s1.elems.length = s.elems.length := by
  constructor
  · decide
  · intro V zero rs ty s
    unfold Rows.ScanSlice
    cases rs.columns with
    | error e => exact ⟨s, rfl, rfl⟩
    | ok cols =>
      simp only
      split
      · exact ⟨_, rfl, storeElems_length _ _⟩
      · refine ⟨_, rfl, ?_⟩
        rw [appendLoop_elems]
        exact storeElems_length _ _

/-- C6 (evaluation at the failing input): for the struct with fields `A`, `B` and the columns
`A`, `X` under the identity mapper, `fieldByName` answers the column `X` with
`reflect.Zero(t)`, which is valid, so `Rows.ScanStruct2` takes its address and panics; the
discard sink is never used and the cursor's `Scan` is not reached. -/
theorem scan_struct2_unmatched_column :
    fieldByName [] (GoVal.struct 3 [(['A'], (0 : Nat)), (['B'], 0)]) ['X']
      = ([(3, [(['A'], 0), (['B'], 1)])], .ret (FieldRef.zeroOf 3))
    ∧ (FieldRef.zeroOf 3).IsValid = true
    ∧ Rows.ScanStruct2 id []
        { columns := .ok [['A'], ['X']], current := .ok [.ok (1 : Nat), .ok 2] }
        (.ptr (.struct 3 [(['A'], 0), (['B'], 0)]))
      = ([(3, [(['A'], 0), (['B'], 1)])],
          { calls := [.Columns],
            outcome := .panic "reflect.Value.Addr of unaddressable value",
            dest := .ptr (.struct 3 [(['A'], 0), (['B'], 0)]) }) := by
  refine ⟨?_, ?_, ?_⟩ <;> decide


/-! ## Struct scan by position -/

theorem set_at_length {α : Type} (pre : List α) (p x : α) (ps : List α) :
    (pre ++ p :: ps).set pre.length x = pre ++ x :: ps := by
  induction pre with
  | nil => rfl
  | cons a t ih => simp [ih]

theorem setSlot_at_length {α : Type} (pre : List α) (p x : α) (ps : List α) :
    setSlot (pre ++ p :: ps) pre.length x = .ret (pre ++ x :: ps) := by
  unfold setSlot
  rw [if_pos (by simp), set_at_length]

theorem fillFields_spec (d : Nat) (names : List GoString) (j : Nat) (pre post : List Dest)
    (hexp : ∀ n ∈ names, isExported n = true) (hlen : names.length ≤ post.length) :
    fillFields d names j (pre ++ post) pre.length
      = .ret (pre ++ (List.range' j names.length).map (Dest.field d) ++ post.drop names.length,
          pre.length + names.length) := by
  induction names generalizing j pre post with
  | nil => simp [fillFields]
  | cons n rest ih =>
    cases post with
    | nil => simp at hlen
    | cons p ps =>
      have hn : isExported n = true := hexp n (List.mem_cons_self _ _)
      have hrest : ∀ m ∈ rest, isExported m = true :=
        fun m hm => hexp m (List.mem_cons_of_mem _ hm)
      have hl : rest.length ≤ ps.length := by simpa using hlen
      have step := ih (j + 1) (pre ++ [Dest.field d j]) ps hrest hl
      simp only [List.length_append, List.length_singleton, List.append_assoc,
        List.singleton_append] at step
      rw [fillFields, if_pos hn, setSlot_at_length]
      simp only [Outcome.bind]
      rw [step]
      simp [List.range'_succ, Nat.add_assoc, Nat.add_comm 1]

theorem fillStructs_spec {V : Type} (vvvs : List (GoVal V)) (d : Nat) (pre post : List Dest)
    (hexp : ∀ v ∈ vvvs, ∀ n ∈ v.fieldNames, isExported n = true)
    (hlen : fieldTotal vvvs ≤ post.length) :
    fillStructs vvvs d (pre ++ post) pre.length
      = .ret (pre ++ positionalDests d vvvs ++ post.drop (fieldTotal vvvs)) := by
  induction vvvs generalizing d pre post with
  | nil => simp [fillStructs, positionalDests, fieldTotal]
  | cons v rest ih =>
    have hv := hexp v (List.mem_cons_self _ _)
    have hrest : ∀ w ∈ rest, ∀ n ∈ w.fieldNames, isExported n = true :=
      fun w hw => hexp w (List.mem_cons_of_mem _ hw)
    simp only [fieldTotal] at hlen
    have h1 := fillFields_spec d v.fieldNames 0 pre post hv (by omega)
    have h2 := ih (d + 1) (pre ++ (List.range' 0 v.fieldNames.length).map (Dest.field d))
      (post.drop v.fieldNames.length) hrest (by simp; omega)
    simp only [List.length_append, List.length_map, List.length_range'] at h2
    rw [fillStructs, h1]
    simp only [Outcome.bind]
    rw [h2]
    simp [positionalDests, fieldTotal, List.drop_drop, Nat.add_comm]

theorem assignColumns_nil {V : Type} (dests : List Dest) (row : List (Except String V))
    (hlen : dests.length ≤ row.length) (hmem : Dest.nil ∈ dests) :
    ∃ e, (assignColumns dests row).2 = some e := by
  induction dests generalizing row with
  | nil => simp at hmem
  | cons d ds ih =>
    cases row with
    | nil => simp at hlen
    | cons x xs =>
      have hl : ds.length ≤ xs.length := by simpa using hlen
      cases d with
      | nil => exact ⟨_, rfl⟩
      | sink =>
        have hm : Dest.nil ∈ ds := by simpa using hmem
        simpa [assignColumns] using ih xs hl hm
      | field a b =>
        have hm : Dest.nil ∈ ds := by simpa using hmem
        cases x with
        | error e => exact ⟨e, rfl⟩
        | ok v => simpa [assignColumns] using ih xs hl hm
      | elem a =>
        have hm : Dest.nil ∈ ds := by simpa using hmem
        cases x with
        | error e => exact ⟨e, rfl⟩
        | ok v => simpa [assignColumns] using ih xs hl hm
      | fresh a =>
        have hm : Dest.nil ∈ ds := by simpa using hmem
        cases x with
        | error e => exact ⟨e, rfl⟩
        | ok v => simpa [assignColumns] using ih xs hl hm
      | cell a b =>
        have hm : Dest.nil ∈ ds := by simpa using hmem
        cases x with
        | error e => exact ⟨e, rfl⟩
        | ok v => simpa [assignColumns] using ih xs hl hm

theorem scan_nil_fails {V : Type} (rs : Cursor V) (dests : List Dest) (hmem : Dest.nil ∈ dests) :
    ∃ e, (rs.Scan dests).2 = some e := by
  unfold Cursor.Scan
  cases rs.current with
  | error e => exact ⟨e, rfl⟩
  | ok row =>
    simp only
    split
    · exact ⟨_, rfl⟩
    · rename_i h
      exact assignColumns_nil dests row (by simp at h; omega) hmem

theorem struct_shape_ok {V : Type} (dest : List (GoVal V))
    (hshape : ∀ d ∈ dest, ∃ ty fields, d = GoVal.ptr (.struct ty fields)) :
    dest.any (fun s => s.Kind ≠ Kind.Ptr ∨ s.Elem.Kind ≠ Kind.Struct) = false := by
  rw [List.any_eq_false]
  intro d hd
  obtain ⟨ty, fields, rfl⟩ := hshape d hd
  simp [GoVal.Kind, GoVal.Elem]

/-- C5 fails as stated: with one struct of one field and two columns, `Rows.ScanStruct` does not
stop before the scan; it calls the cursor's `Scan` with the partially filled list
`[&A, nil]`, and the error it returns is the one of `Scan`, after column 0 was stored. -/
theorem scan_struct_count_counterexample :
    ¬ (∀ (rs : Cursor Nat) (dest : List (GoVal Nat)) (cols : List GoString),
        dest ≠ [] → (∀ d ∈ dest, ∃ ty fields, d = GoVal.ptr (.struct ty fields)) →
        rs.columns = .ok cols → cols.length ≠ fieldTotal (dest.map GoVal.Elem) →
        (∃ e, (Rows.ScanStruct rs dest).outcome = .ret (some e))
          ∧ (Rows.ScanStruct rs dest).calls = [.Columns]) := by
  intro h
  have := (h { columns := .ok [['a'], ['b']], current := .ok [.ok 1, .ok 2] }
    [.ptr (.struct 0 [(['A'], 0)])] [['a'], ['b']] (by simp)
    (by intro d hd; simp at hd; exact ⟨0, [(['A'], 0)], hd⟩) rfl (by decide)).2
  revert this
  decide

/-- C5, amended: for a non-empty list of struct pointers whose fields are all exported and
whose total number of fields is smaller than the number of columns, `Rows.ScanStruct` makes no
count check of its own: it calls the cursor's `Scan` with a list of column-count entries, the
field addresses in order followed by nil entries, and returns what `Scan` returns, which is an
error since a nil destination is refused. -/
theorem scan_struct_fewer_fields {V : Type} (rs : Cursor V) (dest : List (GoVal V))
    (cols : List GoString) (hne : dest ≠ [])
    (hshape : ∀ d ∈ dest, ∃ ty fields, d = GoVal.ptr (.struct ty fields))
    (hexp : ∀ d ∈ dest, ∀ n ∈ d.Elem.fieldNames, isExported n = true)
    (hcols : rs.columns = .ok cols)
    (hlt : fieldTotal (dest.map GoVal.Elem) < cols.length) :
    (Rows.ScanStruct rs dest).calls
        = [.Columns, .Scan (positionalDests 0 (dest.map GoVal.Elem)
            ++ List.replicate (cols.length - fieldTotal (dest.map GoVal.Elem)) Dest.nil)]
    ∧ (Rows.ScanStruct rs dest).outcome
        = .ret (rs.Scan (positionalDests 0 (dest.map GoVal.Elem)
            ++ List.replicate (cols.length - fieldTotal (dest.map GoVal.Elem)) Dest.nil)).2
    ∧ ∃ e, (Rows.ScanStruct rs dest).outcome = .ret (some e) := by
  have hlen : dest.length ≠ 0 := by
    intro h0
    exact hne (List.length_eq_zero.1 h0)
  have hfill := fillStructs_spec (dest.map GoVal.Elem) 0 [] (List.replicate cols.length Dest.nil)
    (by
      intro v hv n hn
      obtain ⟨d, hd, rfl⟩ := List.mem_map.1 hv
      exact hexp d hd n hn)
    (by simp; omega)
  simp only [List.nil_append, List.length_nil, List.drop_replicate] at hfill
  have hnil : Dest.nil ∈ positionalDests 0 (dest.map GoVal.Elem)
      ++ List.replicate (cols.length - fieldTotal (dest.map GoVal.Elem)) Dest.nil := by
    apply List.mem_append_right
    rw [List.mem_replicate]
    exact ⟨by omega, rfl⟩
  obtain ⟨e, he⟩ := scan_nil_fails rs _ hnil
  simp only [Rows.ScanStruct, if_neg hlen, struct_shape_ok dest hshape, hcols, hfill]
  exact ⟨by simp, by simp, e, by simp [he]⟩

/-- Witness of the amended C5: one struct with the field `A`, two columns. -/
theorem scan_struct_fewer_fields_witness :
    (Rows.ScanStruct { columns := .ok [['a'], ['b']], current := .ok [.ok (1 : Nat), .ok 2] }
        [.ptr (.struct 0 [(['A'], 0)])]).calls
        = [.Columns, .Scan (positionalDests 0 [GoVal.struct 0 [(['A'], (0 : Nat))]]
            ++ List.replicate (2 - fieldTotal [GoVal.struct 0 [(['A'], (0 : Nat))]]) Dest.nil)]
    ∧ (Rows.ScanStruct { columns := .ok [['a'], ['b']], current := .ok [.ok (1 : Nat), .ok 2] }
        [.ptr (.struct 0 [(['A'], 0)])]).outcome
        = .ret ((Cursor.Scan
            { columns := .ok [['a'], ['b']], current := .ok [.ok (1 : Nat), .ok 2] }
            (positionalDests 0 [GoVal.struct 0 [(['A'], (0 : Nat))]]
              ++ List.replicate (2 - fieldTotal [GoVal.struct 0 [(['A'], (0 : Nat))]])
                Dest.nil)).2)
    ∧ ∃ e, (Rows.ScanStruct
        { columns := .ok [['a'], ['b']], current := .ok [.ok (1 : Nat), .ok 2] }
        [.ptr (.struct 0 [(['A'], 0)])]).outcome = .ret (some e) :=
  scan_struct_fewer_fields
    { columns := .ok [['a'], ['b']], current := .ok [.ok (1 : Nat), .ok 2] }
    [.ptr (.struct 0 [(['A'], 0)])] [['a'], ['b']] (by simp)
    (by intro d hd; simp at hd; exact ⟨0, [(['A'], 0)], hd⟩)
    (by decide) rfl (by decide)


/-! ## Scan-target pool -/

theorem mapGet_mapSet_same {κ β : Type} [DecidableEq κ] (m : List (κ × β)) (k : κ) (v : β) :
    mapGet (mapSet m k v) k = some v := by
  induction m with
  | nil => simp [mapSet, mapGet]
  | cons e rest ih =>
    obtain ⟨k1, w⟩ := e
    by_cases h : k1 = k
    · simp [mapSet, mapGet, h]
    · simp [mapSet, mapGet, h, ih]

theorem mapGet_mapSet_other {κ β : Type} [DecidableEq κ] (m : List (κ × β)) (k k2 : κ) (v : β)
    (hne : k ≠ k2) : mapGet (mapSet m k v) k2 = mapGet m k2 := by
  induction m with
  | nil => simp [mapSet, mapGet, hne]
  | cons e rest ih =>
    obtain ⟨k1, w⟩ := e
    by_cases h : k1 = k
    · subst h
      simp [mapSet, mapGet, hne]
    · by_cases h2 : k1 = k2
      · subst h2
        simp [mapSet, mapGet, h]
      · simp [mapSet, mapGet, h, h2, ih]

theorem run_snoc (typ : Ty) (n : Nat) (p : Pool) :
    ReflectNew.run typ (n + 1) p
      = ((ReflectNew (ReflectNew.run typ n p).1 typ).1,
          (ReflectNew.run typ n p).2 ++ [(ReflectNew (ReflectNew.run typ n p).1 typ).2]) := by
  induction n generalizing p with
  | zero => simp [ReflectNew.run]
  | succ n ih =>
    rw [ReflectNew.run, ih (ReflectNew p typ).1]
    simp [ReflectNew.run]

theorem run_closed_form (typ : Ty) (p : Pool) (hfresh : mapGet p.reflectCache typ = none)
    (n : Nat) :
    (ReflectNew.run typ (n + 1) p).2
        = (List.range (n + 1)).map
            (fun j => Outcome.ret (Dest.cell (p.allocated + j / 200) (j % 200)))
    ∧ mapGet (ReflectNew.run typ (n + 1) p).1.reflectCache typ
        = some { value := ⟨p.allocated + n / 200, newSize⟩, idx := n % 200 }
    ∧ (ReflectNew.run typ (n + 1) p).1.allocated = p.allocated + n / 200 + 1 := by
  induction n with
  | zero =>
    simp [ReflectNew.run, ReflectNew, hfresh, cacheStruct.cell, newSize, mapGet_mapSet_same,
      List.range_succ]
  | succ n ih =>
    obtain ⟨ho, hc, ha⟩ := ih
    rw [run_snoc]
    simp only [ReflectNew, hc]
    by_cases hwrap : n % 200 + 1 > newSize - 1
    · have h1 : (n + 1) / 200 = n / 200 + 1 := by simp [newSize] at hwrap; omega
      have h2 : (n + 1) % 200 = 0 := by simp [newSize] at hwrap; omega
      rw [if_pos hwrap]
      refine ⟨?_, ?_, ?_⟩
      · rw [ho, List.range_succ (n := n + 1), List.map_append]
        simp [cacheStruct.cell, newSize, ha, h1, h2, Nat.add_assoc]
      · simp [mapGet_mapSet_same, ha, h1, h2, Nat.add_assoc]
      · simp only [ha, h1]
        omega
    · have h1 : (n + 1) / 200 = n / 200 := by simp [newSize] at hwrap; omega
      have h2 : (n + 1) % 200 = n % 200 + 1 := by simp [newSize] at hwrap; omega
      have h3 : n % 200 + 1 < 200 := by simp [newSize] at hwrap; omega
      rw [if_neg hwrap]
      refine ⟨?_, ?_, ?_⟩
      · rw [ho, List.range_succ (n := n + 1), List.map_append]
        simp [cacheStruct.cell, newSize, h1, h2, h3]
      · simp [mapGet_mapSet_same, h1, h2]
      · simp [ha, h1]

/-- C9: scan-target pool slab cycle. Starting from a pool that has no slab for `typ`, in a run
of `n` successive calls `ReflectNew(typ)` the `k`-th call returns cell `(k-1) mod 200` of the
`ceil(k/200)`-th slab allocated by the run; after `k` calls the cursor of the type is
`(k-1) mod 200` on that slab and the run has allocated `ceil(k/200)` slabs, so a call
allocates exactly when `k - 1` is a multiple of 200 and then returns cell 0; and two different
calls of the run return different cells. -/
theorem pool_slab_cycle (typ : Ty) (p : Pool) (hfresh : mapGet p.reflectCache typ = none)
    (n k : Nat) (hk : 1 ≤ k) (hkn : k ≤ n) :
    (ReflectNew.run typ n p).2[k - 1]?
        = some (.ret (Dest.cell (p.allocated + ((k + 199) / 200 - 1)) ((k - 1) % 200)))
    ∧ mapGet (ReflectNew.run typ k p).1.reflectCache typ
        = some { value := ⟨p.allocated + ((k + 199) / 200 - 1), newSize⟩, idx := (k - 1) % 200 }
    ∧ (ReflectNew.run typ k p).1.allocated = p.allocated + (k + 199) / 200
    ∧ (ReflectNew.run typ k p).1.allocated
        = (ReflectNew.run typ (k - 1) p).1.allocated + (if (k - 1) % 200 = 0 then 1 else 0)
    ∧ ∀ j, 1 ≤ j → j < k →
        (ReflectNew.run typ n p).2[j - 1]? ≠ (ReflectNew.run typ n p).2[k - 1]? := by
  obtain ⟨n, rfl⟩ : ∃ m, n = m + 1 := ⟨n - 1, by omega⟩
  obtain ⟨k, rfl⟩ : ∃ m, k = m + 1 := ⟨k - 1, by omega⟩
  have hn := run_closed_form typ p hfresh n
  have hkf := run_closed_form typ p hfresh k
  have e1 : (k + 1 + 199) / 200 - 1 = k / 200 := by omega
  have e2 : (k + 1 + 199) / 200 = k / 200 + 1 := by omega
  simp only [Nat.add_sub_cancel, e1, e2]
  refine ⟨?_, hkf.2.1, by rw [hkf.2.2]; omega, ?_, ?_⟩
  · rw [hn.1]
    simp [List.getElem?_map, List.getElem?_range (show k < n + 1 by omega)]
  · rw [hkf.2.2]
    cases k with
    | zero => simp [ReflectNew.run]
    | succ k =>
      rw [(run_closed_form typ p hfresh k).2.2]
      split <;> omega
  · intro j hj hjk
    obtain ⟨j, rfl⟩ : ∃ m, j = m + 1 := ⟨j - 1, by omega⟩
    rw [hn.1]
    simp only [Nat.add_sub_cancel]
    rw [List.getElem?_map, List.getElem?_map,
      List.getElem?_range (show j < n + 1 by omega), List.getElem?_range (show k < n + 1 by omega)]
    simp only [Option.map_some', ne_eq, Option.some.injEq, Outcome.ret.injEq, Dest.cell.injEq,
      not_and]
    intro h1 h2
    omega

/-- Witness of C9: in a run of 201 calls from the empty pool, call 201 returns cell 0 of the
second slab. -/
theorem pool_slab_cycle_witness :
    (ReflectNew.run 7 201 Pool.empty).2[201 - 1]?
        = some (.ret (Dest.cell (Pool.empty.allocated + ((201 + 199) / 200 - 1)) ((201 - 1) % 200)))
    ∧ mapGet (ReflectNew.run 7 201 Pool.empty).1.reflectCache 7
        = some { value := ⟨Pool.empty.allocated + ((201 + 199) / 200 - 1), newSize⟩,
                 idx := (201 - 1) % 200 }
    ∧ (ReflectNew.run 7 201 Pool.empty).1.allocated = Pool.empty.allocated + (201 + 199) / 200
    ∧ (ReflectNew.run 7 201 Pool.empty).1.allocated
        = (ReflectNew.run 7 (201 - 1) Pool.empty).1.allocated
          + (if (201 - 1) % 200 = 0 then 1 else 0)
    ∧ ∀ j, 1 ≤ j → j < 201 →
        (ReflectNew.run 7 201 Pool.empty).2[j - 1]? ≠ (ReflectNew.run 7 201 Pool.empty).2[201 - 1]? :=
  pool_slab_cycle 7 Pool.empty (by decide) 201 201 (by decide) (by decide)


/-! ## Map scan -/

theorem reflectNew_step (p : Pool) (typ : Ty) (hs : p.Sound) :
    (ReflectNew p typ).1.Sound
    ∧ ∃ s i, (ReflectNew p typ).2 = .ret (Dest.cell s i) ∧ i < newSize
        ∧ p.nextRank typ ≤ cellRank s i
        ∧ (ReflectNew p typ).1.nextRank typ = cellRank s i + 1 := by
  have sound_set : ∀ (cs : cacheStruct) (a : Nat), p.allocated ≤ a →
      cs.value.id < a → cs.value.len = newSize → cs.idx < newSize →
      Pool.Sound { reflectCache := mapSet p.reflectCache typ cs, allocated := a } := by
    intro cs a ha h1 h2 h3 t cs1 hget
    by_cases ht : typ = t
    · subst ht
      rw [mapGet_mapSet_same] at hget
      injection hget with hget
      subst hget
      exact ⟨h1, h2, h3⟩
    · rw [mapGet_mapSet_other _ _ _ _ ht] at hget
      obtain ⟨g1, g2, g3⟩ := hs t cs1 hget
      exact ⟨lt_of_lt_of_le g1 ha, g2, g3⟩
  unfold ReflectNew
  cases hget : mapGet p.reflectCache typ with
  | none =>
    refine ⟨sound_set _ _ (Nat.le_succ _) (Nat.lt_succ_self _) rfl
      (show (0 : Nat) < newSize by decide), ?_⟩
    refine ⟨p.allocated, 0, by simp [cacheStruct.cell, newSize], by decide, ?_, ?_⟩
    · simp [Pool.nextRank, hget]
    · simp [Pool.nextRank, mapGet_mapSet_same]
  | some cs =>
    obtain ⟨g1, g2, g3⟩ := hs typ cs hget
    simp only
    split
    · refine ⟨sound_set _ _ (Nat.le_succ _) (Nat.lt_succ_self _) rfl
      (show (0 : Nat) < newSize by decide), ?_⟩
      refine ⟨p.allocated, 0, by simp [cacheStruct.cell, newSize], by decide, ?_, ?_⟩
      · simp only [Pool.nextRank, hget, cellRank, newSize] at *
        omega
      · simp [Pool.nextRank, mapGet_mapSet_same]
    · rename_i hwrap
      have hlt : cs.idx + 1 < newSize := by simp only [newSize] at *; omega
      refine ⟨sound_set _ _ (le_refl _) g1 g2 hlt, ?_⟩
      refine ⟨cs.value.id, cs.idx + 1, by simp [cacheStruct.cell, g2, hlt], hlt, ?_, ?_⟩
      · simp [Pool.nextRank, hget, cellRank, Nat.add_assoc]
      · simp [Pool.nextRank, mapGet_mapSet_same]

theorem reachable_sound (p : Pool) (h : p.Reachable) : p.Sound := by
  induction h with
  | empty =>
    intro t cs hget
    simp [Pool.empty, mapGet] at hget
  | step p typ _ ih => exact (reflectNew_step p typ ih).1

theorem acquireCells_spec (typ : Ty) (cols : List GoString) (p : Pool) (hs : p.Sound) :
    ∃ cells, (acquireCells typ cols p).2 = .ret cells
      ∧ cells.length = cols.length
      ∧ (∀ c ∈ cells, ∃ s i, c = Dest.cell s i ∧ i < newSize ∧ p.nextRank typ ≤ cellRank s i)
      ∧ cells.Nodup := by
  induction cols generalizing p with
  | nil => exact ⟨[], rfl, rfl, by simp, List.nodup_nil⟩
  | cons c rest ih =>
    obtain ⟨hs1, s, i, hret, hi, hle, hnext⟩ := reflectNew_step p typ hs
    obtain ⟨cells, hcells, hlen, hall, hnd⟩ := ih (ReflectNew p typ).1 hs1
    refine ⟨Dest.cell s i :: cells, ?_, by simp [hlen], ?_, ?_⟩
    · rw [acquireCells]
      cases hr : ReflectNew p typ with
      | mk p1 o =>
        rw [hr] at hret hcells
        simp only at hret hcells
        subst hret
        cases ha : acquireCells typ rest p1 with
        | mk p2 o2 =>
          rw [ha] at hcells
          simp only at hcells
          subst hcells
          simp [ha]
    · intro d hd
      rcases List.mem_cons.1 hd with rfl | hd
      · exact ⟨s, i, rfl, hi, hle⟩
      · obtain ⟨s2, i2, rfl, hi2, hle2⟩ := hall d hd
        exact ⟨s2, i2, rfl, hi2, by omega⟩
    · refine List.nodup_cons.2 ⟨?_, hnd⟩
      intro hmem
      obtain ⟨s2, i2, heq, hi2, hle2⟩ := hall _ hmem
      injection heq with e1 e2
      subst e1; subst e2
      omega


theorem assignColumns_success {V : Type} (dests : List Dest) (row : List (Except String V))
    (hcell : ∀ d ∈ dests, ∃ s i, d = Dest.cell s i) (hlen : dests.length = row.length)
    (hok : (assignColumns dests row).2 = none) :
    ∃ vals : List V, row = vals.map Except.ok ∧ (assignColumns dests row).1 = dests.zip vals := by
  induction dests generalizing row with
  | nil =>
    cases row with
    | nil => exact ⟨[], rfl, rfl⟩
    | cons x xs => simp at hlen
  | cons d ds ih =>
    cases row with
    | nil => simp at hlen
    | cons x xs =>
      obtain ⟨s, i, rfl⟩ := hcell d (List.mem_cons_self _ _)
      have hl : ds.length = xs.length := by simpa using hlen
      cases x with
      | error e => simp [assignColumns] at hok
      | ok v =>
        simp only [assignColumns] at hok
        obtain ⟨vals, hrow, hst⟩ := ih xs (fun d hd => hcell d (List.mem_cons_of_mem _ hd)) hl hok
        refine ⟨v :: vals, by simp [hrow], ?_⟩
        simp [assignColumns, hst]

theorem mapGet_of_mem {κ β : Type} [DecidableEq κ] (l : List (κ × β)) (k : κ) (v : β)
    (hnd : (l.map Prod.fst).Nodup) (hmem : (k, v) ∈ l) : mapGet l k = some v := by
  induction l with
  | nil => simp at hmem
  | cons e rest ih =>
    obtain ⟨k1, w⟩ := e
    simp only [List.map_cons, List.nodup_cons] at hnd
    rcases List.mem_cons.1 hmem with heq | hin
    · injection heq with e1 e2
      subst e1; subst e2
      simp [mapGet]
    · have hne : k1 ≠ k := by
        intro h
        subst h
        exact hnd.1 (List.mem_map.2 ⟨(k1, v), hin, rfl⟩)
      simp [mapGet, hne, ih hnd.2 hin]

theorem readBack_zip {V : Type} (dests : List Dest) (vals : List V) (zero : V)
    (hnd : dests.Nodup) (hlen : dests.length = vals.length) (d : Dest) (v : V)
    (hmem : (d, v) ∈ dests.zip vals) : readBack (dests.zip vals) d zero = v := by
  unfold readBack
  have hkeys : ((dests.zip vals).reverse.map Prod.fst).Nodup := by
    rw [List.map_reverse, List.nodup_reverse, List.map_fst_zip _ _ (le_of_eq hlen)]
    exact hnd
  rw [mapGet_of_mem _ d v hkeys (List.mem_reverse.2 hmem)]

theorem setEntries_map {V : Type} (stores : List (Dest × V)) (zero : V)
    (pairs : List (GoString × Dest)) (t : Ty) (entries : List (GoString × V)) :
    setEntries stores zero pairs (.map t entries)
      = (.map t (pairs.foldl (fun acc nd => mapSet acc nd.1 (readBack stores nd.2 zero)) entries),
          none) := by
  induction pairs generalizing entries with
  | nil => rfl
  | cons nd rest ih =>
    obtain ⟨name, d⟩ := nd
    simp [setEntries, GoVal.SetMapIndex, ih]

theorem foldl_mapSet_other {β γ : Type} (f : γ → β) (pairs : List (GoString × γ))
    (entries : List (GoString × β)) (k : GoString) (hk : k ∉ pairs.map Prod.fst) :
    mapGet (pairs.foldl (fun acc nd => mapSet acc nd.1 (f nd.2)) entries) k = mapGet entries k := by
  induction pairs generalizing entries with
  | nil => rfl
  | cons nd rest ih =>
    simp only [List.map_cons, List.mem_cons, not_or] at hk
    rw [List.foldl_cons, ih _ hk.2, mapGet_mapSet_other _ _ _ _ (Ne.symm hk.1)]

theorem foldl_mapSet_mem {β γ : Type} (f : γ → β) (pairs : List (GoString × γ))
    (entries : List (GoString × β)) (hnd : (pairs.map Prod.fst).Nodup) (k : GoString) (d : γ)
    (hmem : (k, d) ∈ pairs) :
    mapGet (pairs.foldl (fun acc nd => mapSet acc nd.1 (f nd.2)) entries) k = some (f d) := by
  induction pairs generalizing entries with
  | nil => simp at hmem
  | cons nd rest ih =>
    simp only [List.map_cons, List.nodup_cons] at hnd
    rw [List.foldl_cons]
    rcases List.mem_cons.1 hmem with heq | hin
    · subst heq
      rw [foldl_mapSet_other f rest _ _ hnd.1, mapGet_mapSet_same]
    · exact ih _ hnd.2 hin


theorem scan_success {V : Type} (rs : Cursor V) (dests : List Dest)
    (hcell : ∀ d ∈ dests, ∃ s i, d = Dest.cell s i) (hok : (rs.Scan dests).2 = none) :
    ∃ vals : List V, rs.current = .ok (vals.map Except.ok) ∧ vals.length = dests.length
      ∧ (rs.Scan dests).1 = dests.zip vals := by
  unfold Cursor.Scan at hok ⊢
  cases hcur : rs.current with
  | error e => simp [hcur] at hok
  | ok row =>
    simp only [hcur] at hok ⊢
    by_cases hlen : dests.length ≠ row.length
    · simp [hlen] at hok
    · rw [if_neg hlen] at hok ⊢
      have hl : dests.length = row.length := by simpa using hlen
      obtain ⟨vals, hrow, hst⟩ := assignColumns_success dests row hcell hl hok
      refine ⟨vals, by rw [hrow], ?_, hst⟩
      rw [hl, hrow, List.length_map]

theorem elem_ptr {V : Type} (t : GoVal V) : (GoVal.ptr t).Elem = t := rfl

/-- C7: map scan. From a reachable pool, for a pointer to a map and columns with pairwise
distinct names, when `Rows.ScanMap` succeeds the destinations it handed to the cursor are one
pool cell per column, pairwise distinct, and afterwards the map holds, under the raw name of
each column, the value scanned for that column; the number of columns is arbitrary, in
particular it may exceed the slab size. -/
theorem scan_map_entries {V : Type} (zero : Ty → V) (pool : Pool) (rs : Cursor V) (m : GoVal V)
    (cols : List GoString) (hreach : pool.Reachable) (hmap : m.Kind = Kind.Map)
    (hcols : rs.columns = .ok cols) (hnd : cols.Nodup)
    (hok : (Rows.ScanMap zero pool rs (.ptr m)).2.outcome = .ret none) :
    ∃ (newDest : List Dest) (row : List V),
      (Rows.ScanMap zero pool rs (.ptr m)).2.calls = [.Columns, .Scan newDest]
      ∧ newDest.length = cols.length ∧ newDest.Nodup
      ∧ rs.current = .ok (row.map Except.ok) ∧ row.length = cols.length
      ∧ ∀ i (hi : i < cols.length), ∃ v, row[i]? = some v
          ∧ MapIndex (Rows.ScanMap zero pool rs (.ptr m)).2.dest.Elem cols[i]
              = .ret (.val v false) := by
  obtain ⟨cells, hcells, hlen, hall, hcnd⟩ :=
    acquireCells_spec m.elemType cols pool (reachable_sound pool hreach)
  have hcell : ∀ d ∈ cells, ∃ s i, d = Dest.cell s i := by
    intro d hd
    obtain ⟨s, i, h, _⟩ := hall d hd
    exact ⟨s, i, h⟩
  have hshape : ¬ ((GoVal.ptr m).Kind ≠ Kind.Ptr ∨ (GoVal.ptr m).Elem.Kind ≠ Kind.Map) := by
    intro h
    rcases h with h | h
    · exact h rfl
    · exact h hmap
  unfold Rows.ScanMap at hok ⊢
  rw [if_neg hshape] at hok ⊢
  simp only [hcols, elem_ptr] at hok ⊢
  cases ha : acquireCells m.elemType cols pool with
  | mk p2 o =>
    rw [ha] at hcells
    simp only at hcells
    subst hcells
    simp only [ha] at hok ⊢
    cases hsc : (rs.Scan cells).2 with
    | some err => simp [hsc] at hok
    | none =>
      obtain ⟨vals, hcur, hvlen, hst⟩ := scan_success rs cells hcell hsc
      simp only [hsc] at hok ⊢
      have hvals : ∀ i (_ : i < cols.length) (_ : i < cells.length) (_ : i < vals.length),
          readBack (rs.Scan cells).1 cells[i] (zero m.elemType) = vals[i] := by
        intro i hi hic hiv
        rw [hst]
        apply readBack_zip cells vals _ hcnd hvlen.symm
        have hz : i < (cells.zip vals).length := by simp; omega
        have := List.getElem_mem hz
        rwa [List.getElem_zip] at this
      cases m with
      | map t entries =>
        rw [setEntries_map] at hok ⊢
        refine ⟨cells, vals, rfl, hlen, hcnd, hcur, by omega, ?_⟩
        intro i hi
        have hic : i < cells.length := by omega
        have hiv : i < vals.length := by omega
        refine ⟨vals[i], by simp [List.getElem?_eq_getElem hiv], ?_⟩
        have hz : i < (cols.zip cells).length := by simp; omega
        have hmem := List.getElem_mem hz
        rw [List.getElem_zip] at hmem
        have hkeys : ((cols.zip cells).map Prod.fst).Nodup := by
          rw [List.map_fst_zip _ _ (le_of_eq hlen.symm)]
          exact hnd
        have hget := foldl_mapSet_mem (fun d => readBack (rs.Scan cells).1 d (zero t))
          (cols.zip cells) entries hkeys cols[i] cells[i] hmem
        simp only [GoVal.elemType] at hvals ⊢
        simp only at hget
        simp only [elem_ptr, MapIndex, hget, hvals i hi hic hiv]
      | nilMap t =>
        cases cols with
        | nil =>
          refine ⟨cells, vals, ?_, hlen, hcnd, hcur, by simpa [hlen] using hvlen, ?_⟩
          · simp [setEntries]
          · intro i hi
            simp at hi
        | cons c rest =>
          cases cells with
          | nil => simp at hlen
          | cons d ds => simp [setEntries, GoVal.SetMapIndex] at hok
      | mapOtherKey t =>
        cases cols with
        | nil =>
          refine ⟨cells, vals, ?_, hlen, hcnd, hcur, by simpa [hlen] using hvlen, ?_⟩
          · simp [setEntries]
          · intro i hi
            simp at hi
        | cons c rest =>
          cases cells with
          | nil => simp at hlen
          | cons d ds => simp [setEntries, GoVal.SetMapIndex] at hok
      | _ => simp [GoVal.Kind] at hmap

/-- Witness of C7: the columns `a`, `b` with the row `(1, 2)` scanned into a map that already
holds `b`, from the empty pool. -/
theorem scan_map_entries_witness :
    ∃ (newDest : List Dest) (row : List Nat),
      (Rows.ScanMap (fun _ => 0) Pool.empty
          { columns := .ok [['a'], ['b']], current := .ok [.ok 1, .ok 2] }
          (.ptr (.map 5 [(['b'], 77)]))).2.calls = [.Columns, .Scan newDest]
      ∧ newDest.length = [['a'], ['b']].length ∧ newDest.Nodup
      ∧ (Except.ok [.ok 1, .ok 2] : Except String (List (Except String Nat)))
          = .ok (row.map Except.ok)
      ∧ row.length = [['a'], ['b']].length
      ∧ ∀ i (hi : i < [['a'], ['b']].length), ∃ v, row[i]? = some v
          ∧ MapIndex (Rows.ScanMap (fun _ => 0) Pool.empty
              { columns := .ok [['a'], ['b']], current := .ok [.ok 1, .ok 2] }
              (.ptr (.map 5 [(['b'], 77)]))).2.dest.Elem ([['a'], ['b']][i])
              = .ret (.val v false) :=
  scan_map_entries (fun _ => 0) Pool.empty
    { columns := .ok [['a'], ['b']], current := .ok [.ok 1, .ok 2] } (.map 5 [(['b'], 77)])
    [['a'], ['b']] Pool.Reachable.empty rfl rfl (by decide) (by decide)

/-! ## Pool cursor bound and failed map scans -/

/-- C18: pool cursor bound. In every pool reachable from the empty pool by calls of
`ReflectNew`, for any mix of types, every slab on record has exactly 200 cells and its cursor
is between 0 and 199; and the next call of `ReflectNew`, for any type, returns a cell whose
index is inside its slab: the access `value.Index(idx)` does not panic. -/
theorem pool_cursor_bound (p : Pool) (hreach : p.Reachable) :
    (∀ t cs, mapGet p.reflectCache t = some cs → cs.value.len = 200 ∧ cs.idx ≤ 199)
    ∧ ∀ typ, ∃ s i, (ReflectNew p typ).2 = .ret (Dest.cell s i) ∧ i < 200
        ∧ ∃ cs, mapGet (ReflectNew p typ).1.reflectCache typ = some cs
            ∧ cs.value = ⟨s, 200⟩ ∧ cs.idx = i := by
  have hs := reachable_sound p hreach
  constructor
  · intro t cs hget
    obtain ⟨_, h2, h3⟩ := hs t cs hget
    simp only [newSize] at h2 h3
    exact ⟨h2, by omega⟩
  · intro typ
    unfold ReflectNew
    cases hget : mapGet p.reflectCache typ with
    | none =>
      exact ⟨p.allocated, 0, by simp [cacheStruct.cell, newSize], by decide,
        _, mapGet_mapSet_same _ _ _, rfl, rfl⟩
    | some cs =>
      obtain ⟨_, h2, h3⟩ := hs typ cs hget
      simp only
      split
      · exact ⟨p.allocated, 0, by simp [cacheStruct.cell, newSize], by decide,
          _, mapGet_mapSet_same _ _ _, rfl, rfl⟩
      · rename_i hwrap
        have hlt : cs.idx + 1 < 200 := by simp only [newSize] at hwrap; omega
        refine ⟨cs.value.id, cs.idx + 1, ?_, hlt, _, mapGet_mapSet_same _ _ _, ?_, rfl⟩
        · simp [cacheStruct.cell, h2, newSize, hlt]
        · simp only [newSize] at h2
          cases hv : cs.value with
          | mk id len =>
            rw [hv] at h2
            simp only at h2
            simp [h2]

/-- Witness of C18: the pool reached from the empty pool by three calls, for the types 4, 9
and 4. -/
theorem pool_cursor_bound_witness :
    (∀ t cs, mapGet (ReflectNew (ReflectNew (ReflectNew Pool.empty 4).1 9).1 4).1.reflectCache t
        = some cs → cs.value.len = 200 ∧ cs.idx ≤ 199)
    ∧ ∀ typ, ∃ s i,
        (ReflectNew (ReflectNew (ReflectNew (ReflectNew Pool.empty 4).1 9).1 4).1 typ).2
          = .ret (Dest.cell s i) ∧ i < 200
        ∧ ∃ cs, mapGet
            (ReflectNew (ReflectNew (ReflectNew (ReflectNew Pool.empty 4).1 9).1 4).1 typ).1.reflectCache
            typ = some cs ∧ cs.value = ⟨s, 200⟩ ∧ cs.idx = i :=
  pool_cursor_bound _
    (Pool.Reachable.step _ 4 (Pool.Reachable.step _ 9 (Pool.Reachable.step _ 4 Pool.Reachable.empty)))

/-- C19: map scan is atomic on failure. For a pointer to a map: when the cursor's `Columns`
returns an error, `Rows.ScanMap` returns that error, having called nothing else, and the map
and the pool are as before; when the cursor's `Scan`, called with the destinations
`Rows.ScanMap` built, returns an error, `Rows.ScanMap` returns that error and the map is as
before the call. -/
theorem scan_map_atomic {V : Type} (zero : Ty → V) (pool : Pool) (rs : Cursor V) (m : GoVal V)
    (hmap : m.Kind = Kind.Map) :
    (∀ e, rs.columns = .error e →
      Rows.ScanMap zero pool rs (.ptr m)
        = (pool, { calls := [.Columns], outcome := .ret (some e), dest := .ptr m }))
    ∧ (∀ newDest e,
        (Rows.ScanMap zero pool rs (.ptr m)).2.calls = [.Columns, .Scan newDest] →
        (rs.Scan newDest).2 = some e →
        (Rows.ScanMap zero pool rs (.ptr m)).2.outcome = .ret (some e)
          ∧ (Rows.ScanMap zero pool rs (.ptr m)).2.dest = .ptr m) := by
  have hshape : ¬ ((GoVal.ptr m).Kind ≠ Kind.Ptr ∨ (GoVal.ptr m).Elem.Kind ≠ Kind.Map) := by
    intro h
    rcases h with h | h
    · exact h rfl
    · exact h hmap
  constructor
  · intro e he
    simp only [Rows.ScanMap, if_neg hshape, he]
  · intro newDest e hcalls hscan
    unfold Rows.ScanMap at hcalls ⊢
    rw [if_neg hshape] at hcalls ⊢
    cases hc : rs.columns with
    | error err => simp [hc] at hcalls
    | ok cols =>
      simp only [hc, elem_ptr] at hcalls ⊢
      cases ha : acquireCells m.elemType cols pool with
      | mk p2 o =>
        cases o with
        | panic msg => simp [ha] at hcalls
        | ret nd =>
          simp only [ha] at hcalls ⊢
          cases hsc : (rs.Scan nd).2 with
          | some err =>
            simp only [hsc] at hcalls ⊢
            simp only [List.cons.injEq, CursorCall.Scan.injEq, and_true, true_and] at hcalls
            subst hcalls
            rw [hsc] at hscan
            injection hscan with hscan
            subst hscan
            exact ⟨rfl, trivial⟩
          | none =>
            simp only [hsc] at hcalls
            have hnd : nd = newDest := by
              cases hse : setEntries (rs.Scan nd).1 (zero m.elemType) (cols.zip nd) m with
              | mk vvv r =>
                rw [hse] at hcalls
                cases r with
                | none => simpa using hcalls
                | some x => simpa using hcalls
            subst hnd
            rw [hsc] at hscan
            cases hscan

/-- Witness of C19: a cursor whose `Columns` fails, and a cursor whose column `a` cannot be
converted, each scanned into a map that holds `b`. -/
theorem scan_map_atomic_witness :
    Rows.ScanMap (fun _ => 0) Pool.empty
        { columns := .error "sql: Rows are closed", current := .error "sql: Rows are closed" }
        (.ptr (.map 5 [(['b'], (77 : Nat))]))
      = (Pool.empty, { calls := [.Columns], outcome := .ret (some "sql: Rows are closed"),
                       dest := .ptr (.map 5 [(['b'], 77)]) })
    ∧ (Rows.ScanMap (fun _ => 0) Pool.empty
        { columns := .ok [['a']], current := .ok [.error "converting failed"] }
        (.ptr (.map 5 [(['b'], (77 : Nat))]))).2.outcome = .ret (some "converting failed")
    ∧ (Rows.ScanMap (fun _ => 0) Pool.empty
        { columns := .ok [['a']], current := .ok [.error "converting failed"] }
        (.ptr (.map 5 [(['b'], (77 : Nat))]))).2.dest = .ptr (.map 5 [(['b'], 77)]) :=
  ⟨(scan_map_atomic (fun _ => 0) Pool.empty
      { columns := .error "sql: Rows are closed", current := .error "sql: Rows are closed" }
      (.map 5 [(['b'], (77 : Nat))]) rfl).1 "sql: Rows are closed" rfl,
   (scan_map_atomic (fun _ => 0) Pool.empty
      { columns := .ok [['a']], current := .ok [.error "converting failed"] }
      (.map 5 [(['b'], (77 : Nat))]) rfl).2 [Dest.cell 0 0] "converting failed"
      (by decide) (by decide)⟩

/-! ## Rewriting twice -/

theorem rewritten_startsWord {q out : GoString} {names : List GoString}
    (h : Rewritten q out names) : startsWord out = startsWord q := by
  cases h with
  | done => rfl
  | keep c rest out names _ _ => rfl
  | subst name rest out names _ _ _ _ => rfl

theorem rewritten_no_named {q out : GoString} {names : List GoString}
    (h : Rewritten q out names) : hasNamed out = false := by
  induction h with
  | done => rfl
  | keep c rest out names hc hr ih =>
    simp only [hasNamed, ih, Bool.or_false, rewritten_startsWord hr]
    by_cases hq : c = '?'
    · have hs : startsWord rest = false := by
        cases hsw : startsWord rest with
        | false => rfl
        | true => exact absurd ⟨hq, hsw⟩ hc
      simp [hs]
    · simp [hq]
  | subst name rest out names _ _ hr hrest ih =>
    simp [hasNamed, ih, rewritten_startsWord hrest, hr]

theorem rewritten_of_no_named (q : GoString) (h : hasNamed q = false) : Rewritten q q [] := by
  induction q with
  | nil => exact Rewritten.done
  | cons c rest ih =>
    simp only [hasNamed, Bool.or_eq_false_iff] at h
    refine Rewritten.keep c rest rest [] ?_ (ih h.2)
    intro hc
    have h1 := h.1
    simp [hc.1, hc.2] at h1

theorem replaceSegs_fold {σ : Type} (step : σ → GoString → σ)
    (repl : σ → GoString → Outcome (σ × GoString))
    (hrepl : ∀ st name, repl st ('?' :: name) = .ret (step st name, ['?']))
    {q out : GoString} {names : List GoString} (h : Rewritten q out names) (st : σ) :
    re.ReplaceAllStringFunc q repl st = .ret (names.foldl step st, out) := by
  unfold re.ReplaceAllStringFunc
  induction h generalizing st with
  | done => simp [re.segments, re.segmentsFrom, replaceSegs]
  | keep c rest out names hc _ ih =>
    rw [segments_keep c rest hc, replaceSegs, ih st]
    rfl
  | subst name rest out names hne hw hr _ ih =>
    rw [segments_subst name rest hne hw hr, replaceSegs, hrepl st name]
    simp only [Outcome.bind, ih (step st name)]
    simp

theorem prepare_rewritten {q out : GoString} {names : List GoString}
    (h : Rewritten q out names) :
    DB.Prepare (fun _ => none) q
      = .ret (.ok { query := out,
                    names := (names.foldl (fun st n => (mapSet st.1 n st.2, st.2 + 1))
                      (([] : List (GoString × Nat)), 0)).1 }) := by
  have := replaceSegs_fold (fun st n => (mapSet st.1 n st.2, st.2 + 1)) prepareCallback
    (fun st name => rfl) h (([] : List (GoString × Nat)), 0)
  simp [DB.Prepare, this]

theorem one_shot_rewriting_nil {V : Type} {q out : GoString} (h : Rewritten q out []) :
    (∀ m : GoVal V, m.Kind = Kind.Map →
      DB.ExecMap q (.ptr m) = .engine (.Exec out [])
        ∧ DB.QueryMap q (.ptr m) = .engine (.Query out []))
    ∧ (∀ s : GoVal V, s.Kind = Kind.Struct →
      DB.ExecStruct q (.ptr s) = .engine (.Exec out [])
        ∧ DB.QueryStruct q (.ptr s) = .engine (.Query out [])) := by
  constructor
  · intro m hk
    have hr := replaceSegs_rewritten m.valueOf (mapCallback (.ptr m)) h
      (fun n hn => absurd hn (List.not_mem_nil n)) []
    have hshape : ¬ ((GoVal.ptr m).Kind ≠ Kind.Ptr ∨ (GoVal.ptr m).Elem.Kind ≠ Kind.Map) := by
      intro hs
      rcases hs with hs | hs
      · exact hs rfl
      · exact hs hk
    simp only [DB.ExecMap, DB.QueryMap, DB.Query, if_neg hshape, hr, List.nil_append,
      List.map_nil, and_self]
  · intro s hk
    have hr := replaceSegs_rewritten s.valueOf (structCallback (.ptr s)) h
      (fun n hn => absurd hn (List.not_mem_nil n)) []
    have hshape : ¬ ((GoVal.ptr s).Kind ≠ Kind.Ptr ∨ (GoVal.ptr s).Elem.Kind ≠ Kind.Struct) := by
      intro hs
      rcases hs with hs | hs
      · exact hs rfl
      · exact hs hk
    simp only [DB.ExecStruct, DB.QueryStruct, DB.Query, if_neg hshape, hr, List.nil_append,
      List.map_nil, and_self]

/-- C17: rewriting leaves no named placeholder behind. Every template has a rewriting `out`,
the query `DB.Prepare` hands to the engine; `out` holds no `?` immediately followed by a word
character; rewriting `out` again returns `out` with no name and no argument, in `DB.Prepare`
and in the one-shot operations on any pointer to a map or to a struct; and a template without
named placeholder is its own rewriting, with no name. -/
theorem rewriting_leaves_no_placeholder (query : GoString) :
    ∃ out names, Rewritten query out names
      ∧ (∃ table, DB.Prepare (fun _ => none) query = .ret (.ok { query := out, names := table }))
      ∧ hasNamed out = false
      ∧ Rewritten out out []
      ∧ DB.Prepare (fun _ => none) out = .ret (.ok { query := out, names := [] })
      ∧ (∀ (V : Type) (m : GoVal V), m.Kind = Kind.Map →
          DB.ExecMap out (.ptr m) = .engine (.Exec out [])
            ∧ DB.QueryMap out (.ptr m) = .engine (.Query out []))
      ∧ (∀ (V : Type) (s : GoVal V), s.Kind = Kind.Struct →
          DB.ExecStruct out (.ptr s) = .engine (.Exec out [])
            ∧ DB.QueryStruct out (.ptr s) = .engine (.Query out []))
      ∧ (hasNamed query = false → out = query ∧ names = []) := by
  obtain ⟨out, names, hrw⟩ := rewritten_exists query
  have hno := rewritten_no_named hrw
  have hself := rewritten_of_no_named out hno
  refine ⟨out, names, hrw, ⟨_, prepare_rewritten hrw⟩, hno, hself, ?_, ?_, ?_, ?_⟩
  · simpa using prepare_rewritten hself
  · intro V m hk
    exact (one_shot_rewriting_nil (V := V) hself).1 m hk
  · intro V s hk
    exact (one_shot_rewriting_nil (V := V) hself).2 s hk
  · intro hq
    exact rewritten_unique hrw (rewritten_of_no_named query hq)

/-- Witness of C17: the template `a=?X,?Y_1 ??X?` is rewritten to `a=?,? ???`, which holds no
named placeholder and is rewritten to itself with no name and no argument. -/
theorem rewriting_leaves_no_placeholder_witness :
    hasNamed ['a', '=', '?', ',', '?', ' ', '?', '?', '?'] = false
    ∧ DB.Prepare (fun _ => none) ['a', '=', '?', ',', '?', ' ', '?', '?', '?']
        = .ret (.ok { query := ['a', '=', '?', ',', '?', ' ', '?', '?', '?'], names := [] })
    ∧ DB.ExecMap ['a', '=', '?', ',', '?', ' ', '?', '?', '?']
        (.ptr (.map 0 ([] : List (GoString × Nat))))
        = .engine (.Exec ['a', '=', '?', ',', '?', ' ', '?', '?', '?'] [])
    ∧ DB.QueryStruct ['a', '=', '?', ',', '?', ' ', '?', '?', '?']
        (.ptr (.struct 0 ([] : List (GoString × Nat))))
        = .engine (.Query ['a', '=', '?', ',', '?', ' ', '?', '?', '?'] []) := by
  obtain ⟨out, names, hrw, _, hno, _, hprep, hmap, hstruct, _⟩ :=
    rewriting_leaves_no_placeholder
      ['a', '=', '?', 'X', ',', '?', 'Y', '_', '1', ' ', '?', '?', 'X', '?']
  obtain ⟨hout, _⟩ := rewritten_unique hrw rewritten_sample
  subst hout
  exact ⟨hno, hprep, (hmap Nat (.map 0 []) rfl).1, (hstruct Nat (.struct 0 []) rfl).2⟩

/-! ## Struct scan by position, counts equal -/

theorem positionalDests_length {V : Type} (vvvs : List (GoVal V)) (d : Nat) :
    (positionalDests d vvvs).length = fieldTotal vvvs := by
  induction vvvs generalizing d with
  | nil => rfl
  | cons v rest ih => simp [positionalDests, fieldTotal, ih]

theorem scanStruct_positional {V : Type} (rs : Cursor V) (dest : List (GoVal V))
    (cols : List GoString) (hne : dest ≠ [])
    (hshape : ∀ d ∈ dest, ∃ ty fields, d = GoVal.ptr (.struct ty fields))
    (hexp : ∀ d ∈ dest, ∀ n ∈ d.Elem.fieldNames, isExported n = true)
    (hcols : rs.columns = .ok cols)
    (heq : fieldTotal (dest.map GoVal.Elem) = cols.length) :
    Rows.ScanStruct rs dest
      = { calls := [.Columns, .Scan (positionalDests 0 (dest.map GoVal.Elem))],
          outcome := .ret (rs.Scan (positionalDests 0 (dest.map GoVal.Elem))).2,
          dest := storeStructs dest (rs.Scan (positionalDests 0 (dest.map GoVal.Elem))).1 } := by
  have hlen : dest.length ≠ 0 := by
    intro h0
    exact hne (List.length_eq_zero.1 h0)
  have hfill := fillStructs_spec (dest.map GoVal.Elem) 0 [] (List.replicate cols.length Dest.nil)
    (by
      intro v hv n hn
      obtain ⟨d, hd, rfl⟩ := List.mem_map.1 hv
      exact hexp d hd n hn)
    (by simp; omega)
  simp only [List.nil_append, List.length_nil, List.drop_replicate, heq, Nat.sub_self,
    List.replicate_zero, List.append_nil] at hfill
  simp only [Rows.ScanStruct, if_neg hlen, struct_shape_ok dest hshape, hcols, hfill]
  simp

/-- C16 fails as stated: for one struct whose single field `a` is unexported and one column,
the counts agree, yet `Rows.ScanStruct` panics in `Interface()` while building the list and the
cursor's `Scan` is never called. -/
theorem scan_struct_order_counterexample :
    ¬ (∀ (rs : Cursor Nat) (dest : List (GoVal Nat)) (cols : List GoString),
        dest ≠ [] → (∀ d ∈ dest, ∃ ty fields, d = GoVal.ptr (.struct ty fields)) →
        rs.columns = .ok cols → fieldTotal (dest.map GoVal.Elem) = cols.length →
        (Rows.ScanStruct rs dest).calls
          = [.Columns, .Scan (positionalDests 0 (dest.map GoVal.Elem))]) := by
  intro h
  have := h { columns := .ok [['x']], current := .ok [.ok 1] }
    [.ptr (.struct 0 [(['a'], 0)])] [['x']] (by simp)
    (by intro d hd; simp at hd; exact ⟨0, [(['a'], 0)], hd⟩) rfl (by decide)
  revert this
  decide

/-- C16, amended: for a non-empty list of struct pointers whose fields are all exported and
whose total number of fields equals the number of columns, `Rows.ScanStruct` passes the
cursor's `Scan` a list of exactly column-count entries, the addresses of the fields of each
struct in declaration order, the structs in argument order, and returns what `Scan` returns.
The list does not depend on the column names: any cursor with as many columns receives the
same one. -/
theorem scan_struct_positional_order {V : Type} (rs : Cursor V) (dest : List (GoVal V))
    (cols : List GoString) (hne : dest ≠ [])
    (hshape : ∀ d ∈ dest, ∃ ty fields, d = GoVal.ptr (.struct ty fields))
    (hexp : ∀ d ∈ dest, ∀ n ∈ d.Elem.fieldNames, isExported n = true)
    (hcols : rs.columns = .ok cols)
    (heq : fieldTotal (dest.map GoVal.Elem) = cols.length) :
    (Rows.ScanStruct rs dest).calls
        = [.Columns, .Scan (positionalDests 0 (dest.map GoVal.Elem))]
    ∧ (positionalDests 0 (dest.map GoVal.Elem)).length = cols.length
    ∧ (Rows.ScanStruct rs dest).outcome
        = .ret (rs.Scan (positionalDests 0 (dest.map GoVal.Elem))).2
    ∧ ∀ (rs2 : Cursor V) (cols2 : List GoString), rs2.columns = .ok cols2 →
        cols2.length = cols.length →
        (Rows.ScanStruct rs2 dest).calls = (Rows.ScanStruct rs dest).calls := by
  have h1 := scanStruct_positional rs dest cols hne hshape hexp hcols heq
  refine ⟨by rw [h1], by rw [positionalDests_length, heq], by rw [h1], ?_⟩
  intro rs2 cols2 hcols2 hlen2
  rw [h1, scanStruct_positional rs2 dest cols2 hne hshape hexp hcols2 (by omega)]

/-- Witness of the amended C16: two structs with the fields `A`, `B` and `C`, three columns
and the row `(1, 2, 3)`. -/
theorem scan_struct_positional_order_witness :
    (Rows.ScanStruct
        { columns := .ok [['x'], ['y'], ['z']], current := .ok [.ok (1 : Nat), .ok 2, .ok 3] }
        [.ptr (.struct 0 [(['A'], 0), (['B'], 0)]), .ptr (.struct 1 [(['C'], 0)])]).calls
        = [.Columns, .Scan [Dest.field 0 0, Dest.field 0 1, Dest.field 1 0]]
    ∧ ([Dest.field 0 0, Dest.field 0 1, Dest.field 1 0] : List Dest).length = 3
    ∧ (Rows.ScanStruct
        { columns := .ok [['x'], ['y'], ['z']], current := .ok [.ok (1 : Nat), .ok 2, .ok 3] }
        [.ptr (.struct 0 [(['A'], 0), (['B'], 0)]), .ptr (.struct 1 [(['C'], 0)])]).outcome
        = .ret none
    ∧ (Rows.ScanStruct
        { columns := .ok [['c'], ['b'], ['a']], current := .ok [.ok (1 : Nat), .ok 2, .ok 3] }
        [.ptr (.struct 0 [(['A'], 0), (['B'], 0)]), .ptr (.struct 1 [(['C'], 0)])]).calls
      = (Rows.ScanStruct
        { columns := .ok [['x'], ['y'], ['z']], current := .ok [.ok (1 : Nat), .ok 2, .ok 3] }
        [.ptr (.struct 0 [(['A'], 0), (['B'], 0)]), .ptr (.struct 1 [(['C'], 0)])]).calls :=
  have h := scan_struct_positional_order
    { columns := .ok [['x'], ['y'], ['z']], current := .ok [.ok (1 : Nat), .ok 2, .ok 3] }
    [.ptr (.struct 0 [(['A'], 0), (['B'], 0)]), .ptr (.struct 1 [(['C'], 0)])]
    [['x'], ['y'], ['z']] (by simp)
    (by
      intro d hd
      simp only [List.mem_cons, List.mem_singleton, List.not_mem_nil, or_false] at hd
      rcases hd with rfl | rfl
      · exact ⟨0, _, rfl⟩
      · exact ⟨1, _, rfl⟩)
    (by decide) rfl (by decide)
  ⟨h.1, h.2.1, h.2.2.1,
    h.2.2.2 { columns := .ok [['c'], ['b'], ['a']], current := .ok [.ok (1 : Nat), .ok 2, .ok 3] }
      [['c'], ['b'], ['a']] rfl rfl⟩

/-! ## Prepared binding: slots -/

/-- C13 (evaluation at the failing input): for the template `?A ?B ?A`, `DB.Prepare` builds a
table of two entries in which `A` has position 2, not smaller than the number of entries. On a
source providing `A` and `B`, `Stmt.ExecMap` and `Stmt.ExecStruct` then store at `args[2]` in a
slice of length 2 and panic, in whichever of the two orders `range` visits the entries. -/
theorem prepared_slot_out_of_range :
    DB.Prepare (fun _ => none) ['?', 'A', ' ', '?', 'B', ' ', '?', 'A']
        = .ret (.ok { query := ['?', ' ', '?', ' ', '?'], names := [(['A'], 2), (['B'], 1)] })
    ∧ ([(['A'], 2), (['B'], 1)] : List (GoString × Nat)).length = 2
    ∧ Stmt.ExecMap { query := ['?', ' ', '?', ' ', '?'], names := [(['A'], 2), (['B'], 1)] }
        [(['A'], 2), (['B'], 1)] (.ptr (.map 0 [(['A'], (7 : Nat)), (['B'], 8)]))
        = .panic "runtime error: index out of range"
    ∧ Stmt.ExecMap { query := ['?', ' ', '?', ' ', '?'], names := [(['A'], 2), (['B'], 1)] }
        [(['B'], 1), (['A'], 2)] (.ptr (.map 0 [(['A'], (7 : Nat)), (['B'], 8)]))
        = .panic "runtime error: index out of range"
    ∧ Stmt.ExecStruct { query := ['?', ' ', '?', ' ', '?'], names := [(['A'], 2), (['B'], 1)] }
        [(['A'], 2), (['B'], 1)] (.ptr (.struct 0 [(['A'], (7 : Nat)), (['B'], 8)]))
        = .panic "runtime error: index out of range"
    ∧ Stmt.ExecStruct { query := ['?', ' ', '?', ' ', '?'], names := [(['A'], 2), (['B'], 1)] }
        [(['B'], 1), (['A'], 2)] (.ptr (.struct 0 [(['A'], (7 : Nat)), (['B'], 8)]))
        = .panic "runtime error: index out of range" := by
  refine ⟨?_, ?_, ?_, ?_, ?_, ?_⟩ <;> first | decide | rfl

/-! ## Prepared binding against one-shot binding -/

theorem mapSet_new {β : Type} (m : List (GoString × β)) (k : GoString) (v : β)
    (hk : k ∉ m.map Prod.fst) : mapSet m k v = m ++ [(k, v)] := by
  induction m with
  | nil => rfl
  | cons e rest ih =>
    obtain ⟨k1, w⟩ := e
    simp only [List.map_cons, List.mem_cons, not_or] at hk
    have hne : ¬ k1 = k := fun h => hk.1 h.symm
    simp [mapSet, hne, ih hk.2]

theorem prepare_fold_distinct (names : List GoString) (m0 : List (GoString × Nat)) (i0 : Nat)
    (hnd : names.Nodup) (hdis : ∀ n ∈ names, n ∉ m0.map Prod.fst) :
    names.foldl (fun st n => (mapSet st.1 n st.2, st.2 + 1)) (m0, i0)
      = (m0 ++ names.zip (List.range' i0 names.length), i0 + names.length) := by
  induction names generalizing m0 i0 with
  | nil => simp
  | cons n rest ih =>
    have hn : n ∉ m0.map Prod.fst := hdis n (List.mem_cons_self _ _)
    rw [List.nodup_cons] at hnd
    rw [List.foldl_cons]
    simp only
    rw [mapSet_new m0 n i0 hn, ih (m0 ++ [(n, i0)]) (i0 + 1) hnd.2]
    · simp [List.range'_succ, Nat.add_assoc, Nat.add_comm 1]
    · intro x hx
      simp only [List.map_append, List.map_cons, List.map_nil, List.mem_append,
        List.mem_singleton, not_or]
      refine ⟨hdis x (List.mem_cons_of_mem _ hx), ?_⟩
      intro hxn
      exact hnd.1 (hxn ▸ hx)

theorem mem_zip_range (names : List GoString) (i0 : Nat) (n : GoString) (j : Nat) :
    (n, j) ∈ names.zip (List.range' i0 names.length) ↔ i0 ≤ j ∧ names[j - i0]? = some n := by
  induction names generalizing i0 with
  | nil => simp
  | cons a rest ih =>
    simp only [List.length_cons, List.range'_succ, List.zip_cons_cons, List.mem_cons,
      Prod.mk.injEq, ih]
    constructor
    · rintro (⟨rfl, rfl⟩ | ⟨hle, hget⟩)
      · simp
      · refine ⟨by omega, ?_⟩
        have : j - i0 = (j - (i0 + 1)) + 1 := by omega
        rw [this]
        simpa using hget
    · rintro ⟨hle, hget⟩
      by_cases hj : j = i0
      · subst hj
        simp at hget
        exact Or.inl ⟨hget.symm, rfl⟩
      · right
        refine ⟨by omega, ?_⟩
        have : j - i0 = (j - (i0 + 1)) + 1 := by omega
        rw [this] at hget
        simpa using hget

theorem setSlot_length {α : Type} (args args2 : List α) (i : Nat) (v : α)
    (h : setSlot args i v = .ret args2) : args2.length = args.length := by
  unfold setSlot at h
  split at h
  · injection h with h
    subst h
    simp
  · cases h

theorem bindSlots_spec {V : Type} (lookup : GoString → Outcome V) (val : GoString → Option V)
    (order : List (GoString × Nat)) (args : List (Option V))
    (h : ∀ e ∈ order, e.2 < args.length ∧ ∃ v, lookup e.1 = .ret v ∧ val e.1 = some v) :
    bindSlots lookup order args
      = .ret (order.foldl (fun a e => a.set e.2 (val e.1)) args) := by
  induction order generalizing args with
  | nil => rfl
  | cons e rest ih =>
    obtain ⟨k, i⟩ := e
    obtain ⟨hi, v, hv, hval⟩ := h (k, i) (List.mem_cons_self _ _)
    simp only at hi hv hval
    rw [bindSlots, hv]
    simp only [Outcome.bind, setSlot, if_pos hi, List.foldl_cons, hval]
    apply ih
    intro e he
    rw [List.length_set]
    exact h e (List.mem_cons_of_mem _ he)

theorem foldl_set_length {α : Type} (f : GoString → α) (order : List (GoString × Nat))
    (args : List α) :
    (order.foldl (fun a e => a.set e.2 (f e.1)) args).length = args.length := by
  induction order generalizing args with
  | nil => rfl
  | cons e rest ih => rw [List.foldl_cons, ih, List.length_set]

theorem foldl_set_untouched {α : Type} (f : GoString → α) (order : List (GoString × Nat))
    (args : List α) (j : Nat) (hj : ∀ e ∈ order, e.2 ≠ j) :
    (order.foldl (fun a e => a.set e.2 (f e.1)) args)[j]? = args[j]? := by
  induction order generalizing args with
  | nil => rfl
  | cons e rest ih =>
    rw [List.foldl_cons, ih _ (fun x hx => hj x (List.mem_cons_of_mem _ hx))]
    exact List.getElem?_set_ne (hj e (List.mem_cons_self _ _))

theorem foldl_set_touched {α : Type} (f : GoString → α) (order : List (GoString × Nat))
    (args : List α) (j : Nat) (x : α) (hlen : j < args.length)
    (hsame : ∀ e ∈ order, e.2 = j → f e.1 = x) (hex : ∃ e ∈ order, e.2 = j) :
    (order.foldl (fun a e => a.set e.2 (f e.1)) args)[j]? = some x := by
  induction order generalizing args with
  | nil =>
    obtain ⟨e, he, _⟩ := hex
    simp at he
  | cons e rest ih =>
    rw [List.foldl_cons]
    by_cases hrest : ∃ e2 ∈ rest, e2.2 = j
    · exact ih _ (by rw [List.length_set]; exact hlen)
        (fun x hx => hsame x (List.mem_cons_of_mem _ hx)) hrest
    · have hno : ∀ e2 ∈ rest, e2.2 ≠ j := fun e2 h2 h3 => hrest ⟨e2, h2, h3⟩
      rw [foldl_set_untouched f rest _ j hno]
      obtain ⟨e2, he2, hj2⟩ := hex
      rcases List.mem_cons.1 he2 with rfl | hin
      · rw [hj2, hsame e2 (List.mem_cons_self _ _) hj2]
        simp [List.getElem?_set, hlen]
      · exact absurd hj2 (hno e2 hin)

theorem bindSlots_table {V : Type} (lookup : GoString → Outcome V) (val : GoString → Option V)
    (names : List GoString) (order : List (GoString × Nat))
    (hperm : order.Perm (names.zip (List.range' 0 names.length)))
    (hval : ∀ n ∈ names, ∃ v, lookup n = .ret v ∧ val n = some v) :
    bindSlots lookup order (List.replicate names.length none) = .ret (names.map val) := by
  have hmem : ∀ e ∈ order, names[e.2]? = some e.1 := by
    intro e he
    have := (mem_zip_range names 0 e.1 e.2).1 (hperm.mem_iff.1 he)
    simpa using this.2
  rw [bindSlots_spec lookup val order _ (by
    intro e he
    have hget := hmem e he
    obtain ⟨hlt, heq⟩ := List.getElem?_eq_some.1 hget
    refine ⟨by simpa using hlt, ?_⟩
    exact hval e.1 (heq ▸ List.getElem_mem _))]
  congr 1
  apply List.ext_getElem?
  intro j
  by_cases hj : j < names.length
  · have hin : (names[j], j) ∈ order := by
      apply hperm.mem_iff.2
      rw [mem_zip_range]
      exact ⟨Nat.zero_le _, by simp [List.getElem?_eq_getElem hj]⟩
    rw [foldl_set_touched val order _ j (val names[j]) (by simpa using hj)
      (by
        intro e he hej
        have hget := hmem e he
        rw [hej, List.getElem?_eq_getElem hj] at hget
        injection hget with hget
        rw [hget])
      ⟨_, hin, rfl⟩]
    simp [List.getElem?_eq_getElem hj]
  · have h1 : (order.foldl (fun a e => a.set e.2 (val e.1))
        (List.replicate names.length none)).length ≤ j := by
      rw [foldl_set_length]
      simpa using hj
    rw [List.getElem?_eq_none h1, List.getElem?_eq_none (by simpa using hj)]

theorem lookup_map_provided {V : Type} (m : GoVal V) (hk : m.Kind = Kind.Map) (n : GoString)
    (h : (m.valueOf n).isSome = true) :
    ∃ v, (MapIndex (GoVal.ptr m).Elem n).bind RValue.Interface = .ret v ∧ m.valueOf n = some v := by
  obtain ⟨v, hv⟩ := Option.isSome_iff_exists.1 h
  refine ⟨v, ?_, hv⟩
  cases m with
  | map elem entries =>
    simp only [GoVal.valueOf] at hv
    simp [GoVal.Elem, MapIndex, hv, Outcome.bind, RValue.Interface]
  | nilMap elem => simp [GoVal.valueOf] at hv
  | mapOtherKey elem => simp [GoVal.valueOf] at hv
  | _ => simp [GoVal.Kind] at hk

theorem lookup_struct_provided {V : Type} (s : GoVal V) (hk : s.Kind = Kind.Struct)
    (n : GoString) (h : (s.valueOf n).isSome = true) :
    ∃ v, (FieldByName (GoVal.ptr s).Elem n).bind RValue.Interface = .ret v
      ∧ s.valueOf n = some v := by
  obtain ⟨v, hv⟩ := Option.isSome_iff_exists.1 h
  refine ⟨v, ?_, hv⟩
  cases s with
  | struct ty fields =>
    simp only [GoVal.valueOf] at hv
    by_cases he : isExported n = true
    · rw [if_pos he] at hv
      simp [GoVal.Elem, FieldByName, hv, Outcome.bind, RValue.Interface, he]
    · rw [if_neg he] at hv
      cases hv
  | _ => simp [GoVal.Kind] at hk

/-- C15: prepared binding agrees with one-shot binding. For a template whose rewriting is `out`
with pairwise distinct names, and an engine that accepts `out`, `DB.Prepare` returns a
statement for the query `out`; on a pointer to a map (resp. to a struct) that provides every
name, `Stmt.ExecMap` (resp. `Stmt.ExecStruct`) hands the engine, in whatever order `range`
visits the name table, the same argument list as the one-shot `DB.ExecMap` (resp.
`DB.ExecStruct`) on the same template and source, for the same rewritten query. -/
theorem prepared_agrees_with_one_shot {V : Type} (enginePrepare : GoString → Option String)
    (query out : GoString) (names : List GoString)
    (hrw : Rewritten query out names) (hnd : names.Nodup) (hacc : enginePrepare out = none) :
    ∃ s : Stmt, DB.Prepare enginePrepare query = .ret (.ok s) ∧ s.query = out
      ∧ (∀ m : GoVal V, m.Kind = Kind.Map → (∀ n ∈ names, (m.valueOf n).isSome = true) →
          ∀ order : List (GoString × Nat), order.Perm s.names →
            ∃ args, Stmt.ExecMap s order (.ptr m) = .engine (.StmtExec out args)
              ∧ DB.ExecMap query (.ptr m) = .engine (.Exec out args))
      ∧ (∀ st : GoVal V, st.Kind = Kind.Struct → (∀ n ∈ names, (st.valueOf n).isSome = true) →
          ∀ order : List (GoString × Nat), order.Perm s.names →
            ∃ args, Stmt.ExecStruct s order (.ptr st) = .engine (.StmtExec out args)
              ∧ DB.ExecStruct query (.ptr st) = .engine (.Exec out args)) := by
  have hfold := replaceSegs_fold (fun st n => (mapSet st.1 n st.2, st.2 + 1)) prepareCallback
    (fun st name => rfl) hrw (([] : List (GoString × Nat)), 0)
  rw [prepare_fold_distinct names [] 0 hnd (by simp)] at hfold
  simp only [List.nil_append, Nat.zero_add] at hfold
  refine ⟨{ query := out, names := names.zip (List.range' 0 names.length) }, ?_, rfl, ?_, ?_⟩
  · simp [DB.Prepare, hfold, hacc]
  · intro m hk hp order hperm
    refine ⟨names.map m.valueOf, ?_, ?_⟩
    · have hshape : ¬ ((GoVal.ptr m).Kind ≠ Kind.Ptr ∨ (GoVal.ptr m).Elem.Kind ≠ Kind.Map) := by
        intro hs
        rcases hs with hs | hs
        · exact hs rfl
        · exact hs hk
      have hb := bindSlots_table
        (fun k => (MapIndex (GoVal.ptr m).Elem k).bind RValue.Interface) m.valueOf names order
        hperm (fun n hn => lookup_map_provided m hk n (hp n hn))
      have hl : (names.zip (List.range' 0 names.length)).length = names.length := by simp
      simp only [Stmt.ExecMap, if_neg hshape, hl, hb]
    · have h := replaceSegs_rewritten m.valueOf (mapCallback (.ptr m)) hrw
        (fun n hn args => mapCallback_provided m hk n (hp n hn) args) []
      have hshape : ¬ ((GoVal.ptr m).Kind ≠ Kind.Ptr ∨ (GoVal.ptr m).Elem.Kind ≠ Kind.Map) := by
        intro hs
        rcases hs with hs | hs
        · exact hs rfl
        · exact hs hk
      simp only [DB.ExecMap, if_neg hshape, h, List.nil_append]
  · intro st hk hp order hperm
    refine ⟨names.map st.valueOf, ?_, ?_⟩
    · have hshape : ¬ ((GoVal.ptr st).Kind ≠ Kind.Ptr
          ∨ (GoVal.ptr st).Elem.Kind ≠ Kind.Struct) := by
        intro hs
        rcases hs with hs | hs
        · exact hs rfl
        · exact hs hk
      have hb := bindSlots_table
        (fun k => (FieldByName (GoVal.ptr st).Elem k).bind RValue.Interface) st.valueOf names
        order hperm (fun n hn => lookup_struct_provided st hk n (hp n hn))
      have hl : (names.zip (List.range' 0 names.length)).length = names.length := by simp
      simp only [Stmt.ExecStruct, if_neg hshape, hl, hb]
    · have h := replaceSegs_rewritten st.valueOf (structCallback (.ptr st)) hrw
        (fun n hn args => structCallback_provided st hk n (hp n hn) args) []
      have hshape : ¬ ((GoVal.ptr st).Kind ≠ Kind.Ptr
          ∨ (GoVal.ptr st).Elem.Kind ≠ Kind.Struct) := by
        intro hs
        rcases hs with hs | hs
        · exact hs rfl
        · exact hs hk
      simp only [DB.ExecStruct, if_neg hshape, h, List.nil_append]

/-- Witness of C15: the template `?X,?Y` on a map and on a struct providing `X` and `Y`, the
name table being visited from its last entry to its first. -/
theorem prepared_agrees_with_one_shot_witness :
    DB.Prepare (fun _ => none) ['?', 'X', ',', '?', 'Y']
        = .ret (.ok { query := ['?', ',', '?'], names := [(['X'], 0), (['Y'], 1)] })
    ∧ (∃ args, Stmt.ExecMap { query := ['?', ',', '?'], names := [(['X'], 0), (['Y'], 1)] }
          [(['Y'], 1), (['X'], 0)] (.ptr (.map 0 [(['X'], (10 : Nat)), (['Y'], 20)]))
          = .engine (.StmtExec ['?', ',', '?'] args)
        ∧ DB.ExecMap ['?', 'X', ',', '?', 'Y'] (.ptr (.map 0 [(['X'], (10 : Nat)), (['Y'], 20)]))
          = .engine (.Exec ['?', ',', '?'] args))
    ∧ (∃ args, Stmt.ExecStruct { query := ['?', ',', '?'], names := [(['X'], 0), (['Y'], 1)] }
          [(['Y'], 1), (['X'], 0)] (.ptr (.struct 0 [(['X'], (10 : Nat)), (['Y'], 20)]))
          = .engine (.StmtExec ['?', ',', '?'] args)
        ∧ DB.ExecStruct ['?', 'X', ',', '?', 'Y']
            (.ptr (.struct 0 [(['X'], (10 : Nat)), (['Y'], 20)]))
          = .engine (.Exec ['?', ',', '?'] args)) := by
  obtain ⟨s, hprep, _, hmap, hstruct⟩ :=
    prepared_agrees_with_one_shot (V := Nat) (fun _ => none) ['?', 'X', ',', '?', 'Y']
      ['?', ',', '?'] [['X'], ['Y']]
      (Rewritten.subst ['X'] [',', '?', 'Y'] _ _ (by decide) (by decide) (by decide) <|
        Rewritten.keep ',' _ _ _ (by decide) <|
        Rewritten.subst ['Y'] [] _ _ (by decide) (by decide) (by decide) Rewritten.done)
      (by decide) rfl
  have hs : s = { query := ['?', ',', '?'], names := [(['X'], 0), (['Y'], 1)] } := by
    have h0 : DB.Prepare (fun _ => none) ['?', 'X', ',', '?', 'Y']
        = .ret (.ok { query := ['?', ',', '?'], names := [(['X'], 0), (['Y'], 1)] }) := rfl
    rw [h0] at hprep
    injection hprep with hprep
    injection hprep with hprep
    exact hprep.symm
  subst hs
  exact ⟨hprep,
    hmap (.map 0 [(['X'], 10), (['Y'], 20)]) rfl (by decide) [(['Y'], 1), (['X'], 0)]
      (List.Perm.swap _ _ _),
    hstruct (.struct 0 [(['X'], 10), (['Y'], 20)]) rfl (by decide) [(['Y'], 1), (['X'], 0)]
      (List.Perm.swap _ _ _)⟩

/-! ## Field index cache -/

theorem buildIndex_absent (names : List GoString) (i : Nat) (cache : List (GoString × Nat))
    (n : GoString) (hn : n ∉ names) :
    mapGet (buildIndex names i cache) n = mapGet cache n := by
  induction names generalizing i cache with
  | nil => rfl
  | cons a rest ih =>
    simp only [List.mem_cons, not_or] at hn
    rw [buildIndex, ih _ _ hn.2, mapGet_mapSet_other _ _ _ _ (Ne.symm hn.1)]

theorem buildIndex_present (names : List GoString) (i : Nat) (cache : List (GoString × Nat))
    (n : GoString) (hn : n ∈ names) :
    ∃ j, mapGet (buildIndex names i cache) n = some j ∧ i ≤ j ∧ names[j - i]? = some n := by
  induction names generalizing i cache with
  | nil => simp at hn
  | cons a rest ih =>
    rw [buildIndex]
    by_cases hr : n ∈ rest
    · obtain ⟨j, hj, hle, hget⟩ := ih (i + 1) (mapSet cache a i) hr
      refine ⟨j, hj, by omega, ?_⟩
      have : j - i = (j - (i + 1)) + 1 := by omega
      rw [this]
      simpa using hget
    · have ha : n = a := by
        rcases List.mem_cons.1 hn with h | h
        · exact h
        · exact absurd h hr
      subst ha
      refine ⟨i, ?_, le_refl _, by simp⟩
      rw [buildIndex_absent rest _ _ n hr, mapGet_mapSet_same]

theorem buildIndex_sound (names : List GoString) (n : GoString) (j : Nat)
    (h : mapGet (buildIndex names 0 []) n = some j) : names[j]? = some n := by
  by_cases hn : n ∈ names
  · obtain ⟨j2, hj2, _, hget⟩ := buildIndex_present names 0 [] n hn
    rw [hj2] at h
    injection h with h
    subst h
    simpa using hget
  · rw [buildIndex_absent names 0 [] n hn] at h
    simp [mapGet] at h

theorem fieldByName_eq {V : Type} (fc : FieldCache) (t : Ty) (fields : List (GoString × V))
    (name : GoString)
    (hc : ∀ c, mapGet fc t = some c → c = buildIndex (fields.map Prod.fst) 0 []) :
    fieldByName fc (GoVal.struct t fields) name
      = (match mapGet fc t with
          | some _ => fc
          | none => mapSet fc t (buildIndex (fields.map Prod.fst) 0 []),
         match mapGet (buildIndex (fields.map Prod.fst) 0 []) name with
          | some i =>
            if i < fields.length then .ret (FieldRef.field i)
            else .panic "reflect: Field index out of range"
          | none => .ret (FieldRef.zeroOf t)) := by
  cases hget : mapGet fc t with
  | none =>
    cases hidx : mapGet (buildIndex (fields.map Prod.fst) 0 []) name with
    | none => simp [fieldByName, hget, hidx]
    | some i =>
      by_cases hi : i < fields.length <;> simp [fieldByName, hget, hidx, hi]
  | some c =>
    have := hc c hget
    subst this
    cases hidx : mapGet (buildIndex (fields.map Prod.fst) 0 []) name with
    | none => simp [fieldByName, hget, hidx]
    | some i =>
      by_cases hi : i < fields.length <;> simp [fieldByName, hget, hidx, hi]

theorem cache_invariant (fieldsOf : Ty → List GoString) (fc : FieldCache)
    (h : CacheReachable fieldsOf fc) :
    ∀ t c, mapGet fc t = some c → c = buildIndex (fieldsOf t) 0 [] := by
  induction h with
  | empty =>
    intro t c hget
    simp [mapGet] at hget
  | step fc t fields name hty _ ih =>
    intro t2 c hget
    rw [fieldByName_eq fc t fields name (by rw [hty]; exact ih t)] at hget
    simp only at hget
    cases hfc : mapGet fc t with
    | some c0 =>
      rw [hfc] at hget
      exact ih t2 c hget
    | none =>
      rw [hfc] at hget
      simp only at hget
      by_cases ht : t = t2
      · subst ht
        rw [mapGet_mapSet_same] at hget
        injection hget with hget
        rw [← hget, hty]
      · rw [mapGet_mapSet_other _ _ _ _ ht] at hget
        exact ih t2 c hget

theorem fieldByName_answer {V : Type} (fc : FieldCache) (t : Ty)
    (fields : List (GoString × V)) (name : GoString)
    (hc : ∀ c, mapGet fc t = some c → c = buildIndex (fields.map Prod.fst) 0 []) :
    mapGet (fieldByName fc (GoVal.struct t fields) name).1 t
        = some (buildIndex (fields.map Prod.fst) 0 [])
    ∧ (∀ i, mapGet (buildIndex (fields.map Prod.fst) 0 []) name = some i →
        (fieldByName fc (GoVal.struct t fields) name).2 = .ret (FieldRef.field i)
          ∧ i < fields.length ∧ (fields.map Prod.fst)[i]? = some name)
    ∧ (mapGet (buildIndex (fields.map Prod.fst) 0 []) name = none →
        (fieldByName fc (GoVal.struct t fields) name).2 = .ret (FieldRef.zeroOf t)) := by
  rw [fieldByName_eq fc t fields name hc]
  refine ⟨?_, ?_, ?_⟩
  · cases hfc : mapGet fc t with
    | some c0 =>
      simp only
      rw [hfc, hc c0 hfc]
    | none =>
      simp only
      exact mapGet_mapSet_same _ _ _
  · intro i hi
    have hget := buildIndex_sound (fields.map Prod.fst) name i hi
    have hlt : i < fields.length := by
      have := (List.getElem?_eq_some.1 hget).1
      simpa using this
    simp only [hi, if_pos hlt]
    exact ⟨trivial, hlt, hget⟩
  · intro hnone
    simp only [hnone]

/-- C12: field index cache stability. In every cache reachable by a sequence of calls of
`fieldByName`: an installed entry maps every field name of its type to a position where the
type declares that name, and to nothing else (to the position itself when names are distinct);
a further call, for that type or another, leaves every installed entry as it is;
`fieldByName` gives the same answer for the same type and name in every reachable cache; and
that answer is the field at the position the entry of the type, installed once the call
returns, records for the name: for a name the type declares, the field at a position that
declares it (the declaration position when names are distinct), and `reflect.Zero(t)` for a
name the type does not declare. -/
theorem field_cache_stable (fieldsOf : Ty → List GoString) (fc : FieldCache)
    (hreach : CacheReachable fieldsOf fc) :
    (∀ t c, mapGet fc t = some c →
      (∀ n ∈ fieldsOf t, ∃ i, mapGet c n = some i ∧ (fieldsOf t)[i]? = some n)
      ∧ (∀ n i, mapGet c n = some i → (fieldsOf t)[i]? = some n)
      ∧ ((fieldsOf t).Nodup →
          ∀ i n, (fieldsOf t)[i]? = some n → mapGet c n = some i))
    ∧ (∀ (V : Type) (t : Ty) (fields : List (GoString × V)) (name : GoString),
        fields.map Prod.fst = fieldsOf t →
        ∀ t2 c, mapGet fc t2 = some c →
          mapGet (fieldByName fc (GoVal.struct t fields) name).1 t2 = some c)
    ∧ (∀ (V : Type) (t : Ty) (fields fields2 : List (GoString × V)) (name : GoString),
        fields.map Prod.fst = fieldsOf t → fields2.map Prod.fst = fieldsOf t →
        ∀ fc2, CacheReachable fieldsOf fc2 →
          (fieldByName fc2 (GoVal.struct t fields2) name).2
            = (fieldByName fc (GoVal.struct t fields) name).2)
    ∧ (∀ (V : Type) (t : Ty) (fields : List (GoString × V)) (name : GoString),
        fields.map Prod.fst = fieldsOf t →
        (∃ c, mapGet (fieldByName fc (GoVal.struct t fields) name).1 t = some c
          ∧ (∀ i, mapGet c name = some i →
              (fieldByName fc (GoVal.struct t fields) name).2 = .ret (FieldRef.field i)
                ∧ i < fields.length ∧ (fieldsOf t)[i]? = some name)
          ∧ (mapGet c name = none →
              (fieldByName fc (GoVal.struct t fields) name).2 = .ret (FieldRef.zeroOf t)))
        ∧ (name ∈ fieldsOf t → ∃ i,
            (fieldByName fc (GoVal.struct t fields) name).2 = .ret (FieldRef.field i)
              ∧ i < fields.length ∧ (fieldsOf t)[i]? = some name)
        ∧ ((fieldsOf t).Nodup → ∀ i, (fieldsOf t)[i]? = some name →
            (fieldByName fc (GoVal.struct t fields) name).2 = .ret (FieldRef.field i))
        ∧ (name ∉ fieldsOf t →
            (fieldByName fc (GoVal.struct t fields) name).2 = .ret (FieldRef.zeroOf t))) := by
  have hinv := cache_invariant fieldsOf fc hreach
  refine ⟨?_, ?_, ?_, ?_⟩
  · intro t c hget
    have hc := hinv t c hget
    subst hc
    have h1 : ∀ n ∈ fieldsOf t, ∃ i, mapGet (buildIndex (fieldsOf t) 0 []) n = some i
        ∧ (fieldsOf t)[i]? = some n := by
      intro n hn
      obtain ⟨j, hj, _, hg⟩ := buildIndex_present (fieldsOf t) 0 [] n hn
      exact ⟨j, hj, by simpa using hg⟩
    refine ⟨h1, fun n i h => buildIndex_sound (fieldsOf t) n i h, ?_⟩
    intro hnd i n hi
    obtain ⟨hlt, heq⟩ := List.getElem?_eq_some.1 hi
    obtain ⟨j, hj, hg⟩ := h1 n (heq ▸ List.getElem_mem _)
    obtain ⟨hlt2, heq2⟩ := List.getElem?_eq_some.1 hg
    have : j = i := (List.Nodup.getElem_inj_iff hnd).1 (heq2.trans heq.symm)
    rw [hj, this]
  · intro V t fields name hty t2 c hget
    rw [fieldByName_eq fc t fields name (by rw [hty]; exact hinv t)]
    simp only
    cases hfc : mapGet fc t with
    | some c0 => exact hget
    | none =>
      simp only
      have hne : t ≠ t2 := by
        intro h
        subst h
        rw [hfc] at hget
        cases hget
      rw [mapGet_mapSet_other _ _ _ _ hne]
      exact hget
  · intro V t fields fields2 name hty hty2 fc2 hreach2
    have hinv2 := cache_invariant fieldsOf fc2 hreach2
    rw [fieldByName_eq fc t fields name (by rw [hty]; exact hinv t),
      fieldByName_eq fc2 t fields2 name (by rw [hty2]; exact hinv2 t)]
    have hl : fields.length = fields2.length := by
      have h1 := congrArg List.length hty
      have h2 := congrArg List.length hty2
      simp only [List.length_map] at h1 h2
      omega
    simp only [hty, hty2, hl]
  · intro V t fields name hty
    obtain ⟨hinst, hsome, hnone⟩ :=
      fieldByName_answer fc t fields name (by rw [hty]; exact hinv t)
    rw [hty] at hinst hsome hnone
    have hpresent : name ∈ fieldsOf t → ∃ i,
        (fieldByName fc (GoVal.struct t fields) name).2 = .ret (FieldRef.field i)
          ∧ i < fields.length ∧ (fieldsOf t)[i]? = some name := by
      intro hn
      obtain ⟨j, hj, _, _⟩ := buildIndex_present (fieldsOf t) 0 [] name hn
      exact ⟨j, hsome j hj⟩
    refine ⟨⟨_, hinst, hsome, hnone⟩, hpresent, ?_, ?_⟩
    · intro hnd i hi
      obtain ⟨hlt, heq⟩ := List.getElem?_eq_some.1 hi
      obtain ⟨j, hj, _, hg⟩ := hpresent (heq ▸ List.getElem_mem _)
      obtain ⟨hlt2, heq2⟩ := List.getElem?_eq_some.1 hg
      have : j = i := (List.Nodup.getElem_inj_iff hnd).1 (heq2.trans heq.symm)
      rw [hj, this]
    · intro hn
      apply hnone
      rw [buildIndex_absent (fieldsOf t) 0 [] name hn]
      rfl

/-- Witness of C12: the cache reached by one lookup on a struct of type 3 with the fields `A`,
`B`: the entry of type 3 maps `B` to position 1, a lookup on a struct of another type keeps
that entry, a lookup of `B` in the empty cache and in this cache give the same answer, and
in this cache the lookup of `B` returns the field at position 1 and the lookup of `X` returns
`reflect.Zero` of the type. -/
theorem field_cache_stable_witness :
    mapGet [(['A'], 0), (['B'], 1)] ['B'] = some 1
    ∧ mapGet (fieldByName
          (fieldByName ([] : FieldCache) (GoVal.struct 3 [(['A'], (0 : Nat)), (['B'], 0)]) ['B']).1
          (GoVal.struct 4 [(['C'], (0 : Nat))]) ['C']).1 3
        = some [(['A'], 0), (['B'], 1)]
    ∧ (fieldByName ([] : FieldCache) (GoVal.struct 3 [(['A'], (5 : Nat)), (['B'], 6)]) ['B']).2
        = (fieldByName
            (fieldByName ([] : FieldCache) (GoVal.struct 3 [(['A'], (0 : Nat)), (['B'], 0)])
              ['B']).1
            (GoVal.struct 3 [(['A'], (0 : Nat)), (['B'], 0)]) ['B']).2
    ∧ (fieldByName
          (fieldByName ([] : FieldCache) (GoVal.struct 3 [(['A'], (0 : Nat)), (['B'], 0)]) ['B']).1
          (GoVal.struct 3 [(['A'], (5 : Nat)), (['B'], 6)]) ['B']).2
        = .ret (FieldRef.field 1)
    ∧ (fieldByName
          (fieldByName ([] : FieldCache) (GoVal.struct 3 [(['A'], (0 : Nat)), (['B'], 0)]) ['B']).1
          (GoVal.struct 3 [(['A'], (5 : Nat)), (['B'], 6)]) ['X']).2
        = .ret (FieldRef.zeroOf 3) :=
  have h := field_cache_stable (fun t => if t = 3 then [['A'], ['B']] else [['C']])
    (fieldByName ([] : FieldCache) (GoVal.struct 3 [(['A'], (0 : Nat)), (['B'], 0)]) ['B']).1
    (CacheReachable.step [] 3 [(['A'], (0 : Nat)), (['B'], 0)] ['B'] rfl CacheReachable.empty)
  ⟨(h.1 3 [(['A'], 0), (['B'], 1)] rfl).2.2 (by decide) 1 ['B'] rfl,
   h.2.1 Nat 4 [(['C'], 0)] ['C'] rfl 3 [(['A'], 0), (['B'], 1)] rfl,
   h.2.2.1 Nat 3 [(['A'], 0), (['B'], 0)] [(['A'], 5), (['B'], 6)] ['B'] rfl rfl []
     CacheReachable.empty,
   (h.2.2.2 Nat 3 [(['A'], 5), (['B'], 6)] ['B'] rfl).2.2.1 (by decide) 1 rfl,
   (h.2.2.2 Nat 3 [(['A'], 5), (['B'], 6)] ['X'] rfl).2.2.2 (by decide)⟩

/-! ## Struct scan by name, every column matched -/

theorem setFieldAt_names {V : Type} (fields : List (GoString × V)) (j : Nat) (v : V) :
    (setFieldAt fields j v).map Prod.fst = fields.map Prod.fst := by
  induction fields generalizing j with
  | nil => rfl
  | cons f rest ih =>
    obtain ⟨n, w⟩ := f
    cases j with
    | zero => rfl
    | succ j => simp [setFieldAt, ih]

theorem setFieldAt_other {V : Type} (fields : List (GoString × V)) (j i : Nat) (v : V)
    (hne : j ≠ i) : (setFieldAt fields j v)[i]? = fields[i]? := by
  induction fields generalizing j i with
  | nil => rfl
  | cons f rest ih =>
    obtain ⟨n, w⟩ := f
    cases j with
    | zero =>
      cases i with
      | zero => exact absurd rfl hne
      | succ i => rfl
    | succ j =>
      cases i with
      | zero => simp [setFieldAt]
      | succ i =>
        simp only [setFieldAt, List.getElem?_cons_succ]
        exact ih j i (by omega)

theorem storeStructs_single {V : Type} (ty : Ty) (stores : List (Dest × V))
    (fields : List (GoString × V)) :
    ∃ fields2, storeStructs [GoVal.ptr (.struct ty fields)] stores = [GoVal.ptr (.struct ty fields2)]
      ∧ fields2.map Prod.fst = fields.map Prod.fst
      ∧ ∀ i, (∀ v, (Dest.field 0 i, v) ∉ stores) → fields2[i]? = fields[i]? := by
  induction stores generalizing fields with
  | nil => exact ⟨fields, rfl, rfl, fun _ _ => rfl⟩
  | cons st rest ih =>
    obtain ⟨d, v⟩ := st
    have skip : (∃ fields2, storeStructs [GoVal.ptr (.struct ty fields)] rest
          = [GoVal.ptr (.struct ty fields2)]
        ∧ fields2.map Prod.fst = fields.map Prod.fst
        ∧ ∀ i, (∀ w, (Dest.field 0 i, w) ∉ rest) → fields2[i]? = fields[i]?) →
        ∀ i, (∀ w, (Dest.field 0 i, w) ∉ (d, v) :: rest) → ∀ w, (Dest.field 0 i, w) ∉ rest :=
      fun _ i h w hw => h w (List.mem_cons_of_mem _ hw)
    cases d with
    | field a j =>
      cases a with
      | zero =>
        obtain ⟨f2, h1, h2, h3⟩ := ih (setFieldAt fields j v)
        refine ⟨f2, ?_, by rw [h2, setFieldAt_names], ?_⟩
        · simpa [storeStructs, storeInto, GoVal.storeField] using h1
        · intro i hi
          rw [h3 i (fun w hw => hi w (List.mem_cons_of_mem _ hw))]
          apply setFieldAt_other
          intro hji
          subst hji
          exact hi v (List.mem_cons_self _ _)
      | succ a =>
        obtain ⟨f2, h1, h2, h3⟩ := ih fields
        refine ⟨f2, ?_, h2, fun i hi => h3 i (fun w hw => hi w (List.mem_cons_of_mem _ hw))⟩
        simpa [storeStructs, storeInto] using h1
    | nil =>
      obtain ⟨f2, h1, h2, h3⟩ := ih fields
      exact ⟨f2, by simpa [storeStructs] using h1, h2,
        fun i hi => h3 i (fun w hw => hi w (List.mem_cons_of_mem _ hw))⟩
    | elem a =>
      obtain ⟨f2, h1, h2, h3⟩ := ih fields
      exact ⟨f2, by simpa [storeStructs] using h1, h2,
        fun i hi => h3 i (fun w hw => hi w (List.mem_cons_of_mem _ hw))⟩
    | fresh a =>
      obtain ⟨f2, h1, h2, h3⟩ := ih fields
      exact ⟨f2, by simpa [storeStructs] using h1, h2,
        fun i hi => h3 i (fun w hw => hi w (List.mem_cons_of_mem _ hw))⟩
    | cell a b =>
      obtain ⟨f2, h1, h2, h3⟩ := ih fields
      exact ⟨f2, by simpa [storeStructs] using h1, h2,
        fun i hi => h3 i (fun w hw => hi w (List.mem_cons_of_mem _ hw))⟩
    | sink =>
      obtain ⟨f2, h1, h2, h3⟩ := ih fields
      exact ⟨f2, by simpa [storeStructs] using h1, h2,
        fun i hi => h3 i (fun w hw => hi w (List.mem_cons_of_mem _ hw))⟩

theorem assignColumns_mem {V : Type} (dests : List Dest) (row : List (Except String V))
    (d : Dest) (v : V) (h : (d, v) ∈ (assignColumns dests row).1) : d ∈ dests := by
  induction dests generalizing row with
  | nil => simp [assignColumns] at h
  | cons a ds ih =>
    cases row with
    | nil => simp [assignColumns] at h
    | cons x xs =>
      cases a with
      | nil => simp [assignColumns] at h
      | sink =>
        simp only [assignColumns] at h
        exact List.mem_cons_of_mem _ (ih xs h)
      | field p q =>
        cases x with
        | error e => simp [assignColumns] at h
        | ok w =>
          simp only [assignColumns, List.mem_cons, Prod.mk.injEq] at h
          rcases h with ⟨h1, _⟩ | h
          · rw [h1]; exact List.mem_cons_self _ _
          · exact List.mem_cons_of_mem _ (ih xs h)
      | elem p =>
        cases x with
        | error e => simp [assignColumns] at h
        | ok w =>
          simp only [assignColumns, List.mem_cons, Prod.mk.injEq] at h
          rcases h with ⟨h1, _⟩ | h
          · rw [h1]; exact List.mem_cons_self _ _
          · exact List.mem_cons_of_mem _ (ih xs h)
      | fresh p =>
        cases x with
        | error e => simp [assignColumns] at h
        | ok w =>
          simp only [assignColumns, List.mem_cons, Prod.mk.injEq] at h
          rcases h with ⟨h1, _⟩ | h
          · rw [h1]; exact List.mem_cons_self _ _
          · exact List.mem_cons_of_mem _ (ih xs h)
      | cell p q =>
        cases x with
        | error e => simp [assignColumns] at h
        | ok w =>
          simp only [assignColumns, List.mem_cons, Prod.mk.injEq] at h
          rcases h with ⟨h1, _⟩ | h
          · rw [h1]; exact List.mem_cons_self _ _
          · exact List.mem_cons_of_mem _ (ih xs h)

theorem scan_stores_mem {V : Type} (rs : Cursor V) (dests : List Dest) (d : Dest) (v : V)
    (h : (d, v) ∈ (rs.Scan dests).1) : d ∈ dests := by
  unfold Cursor.Scan at h
  cases hcur : rs.current with
  | error e => simp [hcur] at h
  | ok row =>
    simp only [hcur] at h
    split at h
    · simp at h
    · exact assignColumns_mem dests row d v h

theorem assignColumns_all_ok {V : Type} (dests : List Dest) (vals : List V)
    (hnil : Dest.nil ∉ dests) : (assignColumns dests (vals.map Except.ok)).2 = none := by
  induction dests generalizing vals with
  | nil => rfl
  | cons a ds ih =>
    cases vals with
    | nil => rfl
    | cons x xs =>
      simp only [List.mem_cons, not_or] at hnil
      cases a with
      | nil => exact absurd rfl hnil.1
      | sink => simpa [assignColumns] using ih xs hnil.2
      | field p q => simpa [assignColumns] using ih xs hnil.2
      | elem p => simpa [assignColumns] using ih xs hnil.2
      | fresh p => simpa [assignColumns] using ih xs hnil.2
      | cell p q => simpa [assignColumns] using ih xs hnil.2

theorem fillByName_spec {V : Type} (Table2Obj : GoString → GoString) (ty : Ty)
    (fields : List (GoString × V)) (cols : List GoString) (fc : FieldCache)
    (pre post : List Dest)
    (hc : ∀ c, mapGet fc ty = some c → c = buildIndex (fields.map Prod.fst) 0 [])
    (hmatch : ∀ col ∈ cols, Table2Obj col ∈ fields.map Prod.fst
      ∧ isExported (Table2Obj col) = true)
    (hlen : cols.length ≤ post.length) :
    ∃ fc2, fillByName Table2Obj (GoVal.struct ty fields) cols pre.length fc (pre ++ post)
      = (fc2, .ret (pre
          ++ cols.map (fun col =>
              match mapGet (buildIndex (fields.map Prod.fst) 0 []) (Table2Obj col) with
              | some i => Dest.field 0 i
              | none => Dest.sink)
          ++ post.drop cols.length)) := by
  induction cols generalizing fc pre post with
  | nil => exact ⟨fc, by simp [fillByName]⟩
  | cons col rest ih =>
    cases post with
    | nil => simp at hlen
    | cons p ps =>
      obtain ⟨hin, hexp⟩ := hmatch col (List.mem_cons_self _ _)
      obtain ⟨i, hi, _, hget⟩ := buildIndex_present (fields.map Prod.fst) 0 [] (Table2Obj col) hin
      simp only [Nat.sub_zero] at hget
      have hilt : i < fields.length := by
        have := (List.getElem?_eq_some.1 hget).1
        simpa using this
      have hfc1 : ∀ c, mapGet (match mapGet fc ty with
            | some _ => fc
            | none => mapSet fc ty (buildIndex (fields.map Prod.fst) 0 [])) ty = some c →
          c = buildIndex (fields.map Prod.fst) 0 [] := by
        intro c hcg
        cases hfc : mapGet fc ty with
        | some c0 =>
          rw [hfc] at hcg
          simp only at hcg
          exact hc c hcg
        | none =>
          rw [hfc] at hcg
          simp only at hcg
          rw [mapGet_mapSet_same] at hcg
          injection hcg with hcg
          exact hcg.symm
      obtain ⟨fc2, hrest⟩ := ih _ (pre ++ [Dest.field 0 i]) ps hfc1
        (fun c hcm => hmatch c (List.mem_cons_of_mem _ hcm)) (by simpa using hlen)
      simp only [List.length_append, List.length_singleton, List.append_assoc,
        List.singleton_append] at hrest
      refine ⟨fc2, ?_⟩
      rw [fillByName, fieldByName_eq fc ty fields (Table2Obj col) hc]
      simp only [hi, if_pos hilt, FieldRef.IsValid, if_true, addrInterface, GoVal.fieldNames,
        List.get?_eq_getElem?, hget, hexp, Outcome.bind, setSlot_at_length]
      rw [hrest]
      simp [hi]

/-- C11 fails as stated: for the struct with the single unexported field `a`, the column `a`
and a mapper that leaves names unchanged, the mapped name is a field of the struct, yet
`Rows.ScanStruct2` panics in `Interface()` while building the list and the cursor's `Scan` is
never called. -/
theorem scan_struct2_subset_counterexample :
    ¬ (∀ (Table2Obj : GoString → GoString) (rs : Cursor Nat) (ty : Ty)
        (fields : List (GoString × Nat)) (cols : List GoString),
        rs.columns = .ok cols → (∀ col ∈ cols, Table2Obj col ∈ fields.map Prod.fst) →
        ∃ newDest, (Rows.ScanStruct2 Table2Obj [] rs (.ptr (.struct ty fields))).2.calls
          = [.Columns, .Scan newDest]) := by
  intro h
  obtain ⟨newDest, hcalls⟩ := h id { columns := .ok [['a']], current := .ok [.ok 1] } 0
    [(['a'], 0)] [['a']] rfl (by decide)
  have hc : (Rows.ScanStruct2 id [] { columns := .ok [['a']], current := .ok [.ok (1 : Nat)] }
      (.ptr (.struct 0 [(['a'], 0)]))).2.calls = [.Columns] := by decide
  rw [hc] at hcalls
  simp at hcalls

/-- C11, amended: for a struct and a column list in which the mapped name of every column is
an exported field of the struct, with a field cache that holds no other index for the struct
type than its own, `Rows.ScanStruct2` calls the cursor's `Scan` with a list as long as the
column list whose j-th entry is the address of a field named by column j, and returns what
`Scan` returns, which is no error when the row converts; afterwards the struct has the same
field names and every field not named by any column has its prior value. -/
theorem scan_struct2_matched_columns {V : Type} (Table2Obj : GoString → GoString)
    (fc : FieldCache) (rs : Cursor V) (ty : Ty) (fields : List (GoString × V))
    (cols : List GoString)
    (hcache : ∀ c, mapGet fc ty = some c → c = buildIndex (fields.map Prod.fst) 0 [])
    (hcols : rs.columns = .ok cols)
    (hmatch : ∀ col ∈ cols, Table2Obj col ∈ fields.map Prod.fst
      ∧ isExported (Table2Obj col) = true) :
    ∃ newDest fields2,
      (Rows.ScanStruct2 Table2Obj fc rs (.ptr (.struct ty fields))).2.calls
          = [.Columns, .Scan newDest]
      ∧ newDest.length = cols.length
      ∧ (∀ j (hj : j < cols.length), ∃ i, newDest[j]? = some (Dest.field 0 i)
          ∧ (fields.map Prod.fst)[i]? = some (Table2Obj cols[j]))
      ∧ (Rows.ScanStruct2 Table2Obj fc rs (.ptr (.struct ty fields))).2.outcome
          = .ret (rs.Scan newDest).2
      ∧ (∀ vals : List V, rs.current = .ok (vals.map Except.ok) → vals.length = cols.length →
          (Rows.ScanStruct2 Table2Obj fc rs (.ptr (.struct ty fields))).2.outcome = .ret none)
      ∧ (Rows.ScanStruct2 Table2Obj fc rs (.ptr (.struct ty fields))).2.dest
          = .ptr (.struct ty fields2)
      ∧ fields2.map Prod.fst = fields.map Prod.fst
      ∧ ∀ (i : Nat) (n : GoString) (v : V), fields[i]? = some (n, v) →
          (∀ col ∈ cols, Table2Obj col ≠ n) →
          fields2[i]? = some (n, v) := by
  obtain ⟨fc2, hfill⟩ := fillByName_spec Table2Obj ty fields cols fc []
    (List.replicate cols.length Dest.nil) hcache hmatch (by simp)
  simp only [List.nil_append, List.length_nil, List.drop_replicate, Nat.sub_self,
    List.replicate_zero, List.append_nil] at hfill
  have hentry : ∀ col ∈ cols, ∃ i,
      (match mapGet (buildIndex (fields.map Prod.fst) 0 []) (Table2Obj col) with
        | some i => Dest.field 0 i
        | none => Dest.sink) = Dest.field 0 i
      ∧ (fields.map Prod.fst)[i]? = some (Table2Obj col) := by
    intro col hcol
    obtain ⟨i, hi, _, hget⟩ := buildIndex_present (fields.map Prod.fst) 0 []
      (Table2Obj col) (hmatch col hcol).1
    simp only [Nat.sub_zero] at hget
    exact ⟨i, by rw [hi], hget⟩
  obtain ⟨fields2, hst, hnames, hkeep⟩ := storeStructs_single ty
    (rs.Scan (cols.map (fun col =>
      match mapGet (buildIndex (fields.map Prod.fst) 0 []) (Table2Obj col) with
      | some i => Dest.field 0 i
      | none => Dest.sink))).1 fields
  have hshape : ¬ ((GoVal.ptr (GoVal.struct ty fields)).Kind ≠ Kind.Ptr
      ∨ (GoVal.ptr (GoVal.struct ty fields)).Elem.Kind ≠ Kind.Struct) := by
    intro hs
    rcases hs with hs | hs
    · exact hs rfl
    · exact hs rfl
  have hrun : Rows.ScanStruct2 Table2Obj fc rs (.ptr (.struct ty fields))
      = (fc2, { calls := [.Columns, .Scan (cols.map (fun col =>
                  match mapGet (buildIndex (fields.map Prod.fst) 0 []) (Table2Obj col) with
                  | some i => Dest.field 0 i
                  | none => Dest.sink))],
                outcome := .ret (rs.Scan (cols.map (fun col =>
                  match mapGet (buildIndex (fields.map Prod.fst) 0 []) (Table2Obj col) with
                  | some i => Dest.field 0 i
                  | none => Dest.sink))).2,
                dest := .ptr (.struct ty fields2) }) := by
    rw [Rows.ScanStruct2, if_neg hshape]
    simp only [hcols, elem_ptr, hfill, hst, List.headD_cons]
  refine ⟨_, fields2, by rw [hrun], by simp, ?_, by rw [hrun], ?_, by rw [hrun], hnames, ?_⟩
  · intro j hj
    obtain ⟨i, h1, h2⟩ := hentry cols[j] (List.getElem_mem _)
    exact ⟨i, by simp [List.getElem?_eq_getElem hj, h1], h2⟩
  · intro vals hcur hvl
    rw [hrun]
    simp only [Cursor.Scan, hcur, List.length_map, hvl, ne_eq, not_true_eq_false, if_false]
    rw [assignColumns_all_ok]
    intro hmem
    obtain ⟨col, hcol, hd⟩ := List.mem_map.1 hmem
    obtain ⟨i, h1, _⟩ := hentry col hcol
    rw [h1] at hd
    cases hd
  · intro i n v hi hno
    rw [hkeep i, hi]
    intro w hw
    have hmem := scan_stores_mem rs _ _ _ hw
    obtain ⟨col, hcol, hd⟩ := List.mem_map.1 hmem
    obtain ⟨i2, h1, h2⟩ := hentry col hcol
    rw [h1] at hd
    injection hd with _ hd
    subst hd
    have hn : (fields.map Prod.fst)[i2]? = some n := by
      rw [List.getElem?_map, hi]
      rfl
    rw [hn] at h2
    injection h2 with h2
    exact hno col hcol h2.symm

/-- Witness of the amended C11: the struct with the fields `C`, `B`, `A`, `D`, the columns
`a`, `c` under the mapper that puts names in upper case, and the row `(1, 3)`. -/
theorem scan_struct2_matched_columns_witness :
    ∃ newDest fields2,
      (Rows.ScanStruct2 (fun s => s.map Char.toUpper) []
          { columns := .ok [['a'], ['c']], current := .ok [.ok (1 : Nat), .ok 3] }
          (.ptr (.struct 1 [(['C'], 0), (['B'], 0), (['A'], 0), (['D'], 5)]))).2.calls
          = [.Columns, .Scan newDest]
      ∧ newDest.length = [['a'], ['c']].length
      ∧ (∀ j (hj : j < [['a'], ['c']].length), ∃ i, newDest[j]? = some (Dest.field 0 i)
          ∧ ([(['C'], (0 : Nat)), (['B'], 0), (['A'], 0), (['D'], 5)].map Prod.fst)[i]?
            = some ((fun s => s.map Char.toUpper) ([['a'], ['c']][j])))
      ∧ (Rows.ScanStruct2 (fun s => s.map Char.toUpper) []
          { columns := .ok [['a'], ['c']], current := .ok [.ok (1 : Nat), .ok 3] }
          (.ptr (.struct 1 [(['C'], 0), (['B'], 0), (['A'], 0), (['D'], 5)]))).2.outcome
          = .ret (Cursor.Scan
              { columns := .ok [['a'], ['c']], current := .ok [.ok (1 : Nat), .ok 3] }
              newDest).2
      ∧ (∀ vals : List Nat,
          (Except.ok [.ok (1 : Nat), .ok 3] : Except String (List (Except String Nat)))
            = .ok (vals.map Except.ok) → vals.length = [['a'], ['c']].length →
          (Rows.ScanStruct2 (fun s => s.map Char.toUpper) []
            { columns := .ok [['a'], ['c']], current := .ok [.ok (1 : Nat), .ok 3] }
            (.ptr (.struct 1 [(['C'], 0), (['B'], 0), (['A'], 0), (['D'], 5)]))).2.outcome
            = .ret none)
      ∧ (Rows.ScanStruct2 (fun s => s.map Char.toUpper) []
          { columns := .ok [['a'], ['c']], current := .ok [.ok (1 : Nat), .ok 3] }
          (.ptr (.struct 1 [(['C'], 0), (['B'], 0), (['A'], 0), (['D'], 5)]))).2.dest
          = .ptr (.struct 1 fields2)
      ∧ fields2.map Prod.fst
          = [(['C'], (0 : Nat)), (['B'], 0), (['A'], 0), (['D'], 5)].map Prod.fst
      ∧ ∀ (i : Nat) (n : GoString) (v : Nat),
          [(['C'], (0 : Nat)), (['B'], 0), (['A'], 0), (['D'], 5)][i]? = some (n, v) →
          (∀ col ∈ [['a'], ['c']], (fun s => s.map Char.toUpper) col ≠ n) →
          fields2[i]? = some (n, v) :=
  scan_struct2_matched_columns (fun s => s.map Char.toUpper) []
    { columns := .ok [['a'], ['c']], current := .ok [.ok (1 : Nat), .ok 3] } 1
    [(['C'], 0), (['B'], 0), (['A'], 0), (['D'], 5)] [['a'], ['c']]
    (by intro c h; simp [mapGet] at h) rfl (by decide)

end Core
